import Mathlib

/-!
Verification of the function-execution runtime `runtime-app.py`.

The runtime polls a Redis-style key-value store for new input on one key,
decodes it as JSON, invokes a dynamically loaded user handler, and publishes
the JSON-encoded result under a second key.  This file gives a shallow
embedding of that program and proves the specification claims about it.

Modelling conventions:
* Python/JSON values are the inductive `PyVal`.  Floats are not modelled
  (no claim exercises them); `PyVal.pyobj` stands for a Python object that
  `json.dumps` cannot serialise.  Dictionary keys are modelled as strings,
  the only case the JSON layer of the runtime produces or consumes.
* `json.dumps` is modelled by `dumpsV` with the default library
  separators (comma-space and colon-space) and `ensure_ascii` escaping.
* `json.loads` is modelled by the fuel-based recursive-descent parser
  `parseV`/`loads`.  Grammar corners that no claim exercises diverge
  mildly from CPython (leading zeros are accepted, lone surrogate escapes
  are rejected, floats are not parsed).
* Raw store values are byte lists; `redis` GET (with `decode_responses`
  false) returns bytes, SET stores the UTF-8 encoding of the written text.
* One iteration of the poll loop is `runCycle`, driven by an `Oracle`
  holding the external nondeterminism of the cycle (GET outcome, SET outcome,
  the clock value read at publish time) and producing an event trace.
-/

/-- Python values as far as the JSON layer of the runtime can observe them.
`pyobj` is an opaque object that is not JSON-serialisable. -/
inductive PyVal where
  | pynone
  | pybool (b : Bool)
  | pyint (n : Int)
  | pystr (s : String)
  | pylist (xs : List PyVal)
  | pydict (kvs : List (String × PyVal))
  | pyobj (tag : Nat)

/-- Model of `isinstance(result, dict)`. -/
def PyVal.isDict : PyVal → Bool
  | .pydict _ => true
  | _ => false

/-- Model of the `payload is None` test. -/
def PyVal.isNone : PyVal → Bool
  | .pynone => true
  | _ => false

/-- A raw value held in (or read from) the store: Python `str` or `bytes`.
`parse_input` accepts both; GET only ever produces bytes. -/
inductive Raw where
  | rstr (s : String)
  | rbytes (b : List Nat)
deriving DecidableEq

/-- Decimal digit character. -/
def digCh (d : Nat) : Char := Char.ofNat (48 + d)

/-- Lowercase hexadecimal digit character, as CPython produces in
`\uXXXX` escapes. -/
def hexCh (d : Nat) : Char :=
  if d < 10 then Char.ofNat (48 + d) else Char.ofNat (87 + d)

/-- The four hex digits of `n % 0x10000`, most significant first. -/
def hex4 (n : Nat) : List Char :=
  [hexCh (n / 4096 % 16), hexCh (n / 256 % 16), hexCh (n / 16 % 16), hexCh (n % 16)]

/-- A `\uXXXX` escape. -/
def uEsc (n : Nat) : List Char := '\\' :: 'u' :: hex4 n

/-- CPython `json` ASCII string escaping for one character: quote and
backslash get a backslash escape, the five short control escapes are used,
other characters outside the printable ASCII range become `\uXXXX`
(a surrogate pair beyond the basic multilingual plane). -/
def escapeChar (c : Char) : List Char :=
  if c = '"' then ['\\', '"']
  else if c = '\\' then ['\\', '\\']
  else if c.toNat = 8 then ['\\', 'b']
  else if c.toNat = 9 then ['\\', 't']
  else if c.toNat = 10 then ['\\', 'n']
  else if c.toNat = 12 then ['\\', 'f']
  else if c.toNat = 13 then ['\\', 'r']
  else if 32 ≤ c.toNat ∧ c.toNat ≤ 126 then [c]
  else if c.toNat < 65536 then uEsc c.toNat
  else uEsc (55296 + (c.toNat - 65536) / 1024) ++ uEsc (56320 + (c.toNat - 65536) % 1024)

/-- JSON encoding of a string literal, quotes included. -/
def encStr (s : String) : List Char :=
  '"' :: (s.data.map escapeChar).flatten ++ ['"']

/-- Decimal digits of `n`, most significant first. -/
def natDigList (n : Nat) : List Nat :=
  if _h : n < 10 then [n]
  else natDigList (n / 10) ++ [n % 10]
termination_by n
decreasing_by exact Nat.div_lt_self (by omega) (by omega)

/-- Decimal character representation of a natural number. -/
def natDigs (n : Nat) : List Char := (natDigList n).map digCh

/-- Decimal representation of an integer, as `repr` of a Python int. -/
def encInt : Int → List Char
  | .ofNat n => natDigs n
  | .negSucc m => '-' :: natDigs (m + 1)

mutual
/-- Model of `json.dumps` with its default separators and `ensure_ascii`
escaping; fails on a value that is not JSON-serialisable. -/
def dumpsV : PyVal → Except Unit (List Char)
  | .pynone => .ok ['n', 'u', 'l', 'l']
  | .pybool true => .ok ['t', 'r', 'u', 'e']
  | .pybool false => .ok ['f', 'a', 'l', 's', 'e']
  | .pyint n => .ok (encInt n)
  | .pystr s => .ok (encStr s)
  | .pylist xs => do
      let inner ← dumpsItems xs
      return '[' :: inner ++ [']']
  | .pydict kvs => do
      let inner ← dumpsMembers kvs
      return '{' :: inner ++ ['}']
  | .pyobj _ => .error ()

/-- Comma-space separated encodings of the elements of a JSON array. -/
def dumpsItems : List PyVal → Except Unit (List Char)
  | [] => .ok []
  | [x] => dumpsV x
  | x :: y :: rest => do
      let dx ← dumpsV x
      let drest ← dumpsItems (y :: rest)
      return dx ++ ',' :: ' ' :: drest

/-- Comma-space separated `"key": value` encodings of object members. -/
def dumpsMembers : List (String × PyVal) → Except Unit (List Char)
  | [] => .ok []
  | [(k, v)] => do
      let dv ← dumpsV v
      return encStr k ++ ':' :: ' ' :: dv
  | (k, v) :: m :: rest => do
      let dv ← dumpsV v
      let drest ← dumpsMembers (m :: rest)
      return encStr k ++ ':' :: ' ' :: dv ++ ',' :: ' ' :: drest
end

/-- JSON whitespace. -/
def isWsC (c : Char) : Bool :=
  c = ' ' || c = '\t' || c = '\n' || c = '\r'

/-- Drop leading JSON whitespace. -/
def skipWs : List Char → List Char
  | [] => []
  | c :: cs => if isWsC c then skipWs cs else c :: cs

/-- Numeric value of a decimal digit character. -/
def digVal (c : Char) : Option Nat :=
  if 48 ≤ c.toNat ∧ c.toNat ≤ 57 then some (c.toNat - 48) else none

/-- Split off the maximal leading run of decimal digits. -/
def takeDigits : List Char → List Nat × List Char
  | [] => ([], [])
  | c :: cs =>
    match digVal c with
    | some d =>
      let p := takeDigits cs
      (d :: p.1, p.2)
    | none => ([], c :: cs)

/-- Recombine a most-significant-first digit list. -/
def digsToNat (ds : List Nat) : Nat := ds.foldl (fun a d => a * 10 + d) 0

/-- Parse a nonempty digit run as a natural number. -/
def parseUIntTok (cs : List Char) : Option (Nat × List Char) :=
  match takeDigits cs with
  | ([], _) => none
  | (ds, r) => some (digsToNat ds, r)

/-- Parse an optionally negated decimal integer token. -/
def parseIntTok (cs : List Char) : Option (Int × List Char) :=
  match cs with
  | [] => none
  | c :: rest =>
    if c = '-' then (parseUIntTok rest).map (fun p => (-(p.1 : Int), p.2))
    else (parseUIntTok (c :: rest)).map (fun p => ((p.1 : Int), p.2))

/-- Numeric value of a hexadecimal digit character (both cases). -/
def hexVal (c : Char) : Option Nat :=
  if 48 ≤ c.toNat ∧ c.toNat ≤ 57 then some (c.toNat - 48)
  else if 97 ≤ c.toNat ∧ c.toNat ≤ 102 then some (c.toNat - 87)
  else if 65 ≤ c.toNat ∧ c.toNat ≤ 70 then some (c.toNat - 55)
  else none

/-- Value of four hex digit characters. -/
def hexVal4 (a b c d : Char) : Option Nat := do
  let x0 ← hexVal a
  let x1 ← hexVal b
  let x2 ← hexVal c
  let x3 ← hexVal d
  return x0 * 4096 + x1 * 256 + x2 * 16 + x3

/-- The simple JSON backslash escapes. -/
def escDecode : Char → Option Char
  | '"' => some '"'
  | '\\' => some '\\'
  | '/' => some '/'
  | 'b' => some (Char.ofNat 8)
  | 'f' => some (Char.ofNat 12)
  | 'n' => some (Char.ofNat 10)
  | 'r' => some (Char.ofNat 13)
  | 't' => some (Char.ofNat 9)
  | _ => none

mutual
/-- Parse the body of a JSON string literal (the opening quote already
consumed), returning the decoded characters and the input after the
closing quote.  Follows the strict CPython decoder: raw control
characters are rejected, `\uXXXX` escapes are decoded, a high surrogate
escape must be followed by a low one (CPython itself tolerates lone
surrogates, which Lean `Char` cannot represent; no runtime input
exercises that corner). -/
def parseStrBody : List Char → Option (List Char × List Char)
  | [] => none
  | c :: cs =>
    if c = '"' then some ([], cs)
    else if c = '\\' then parseEsc cs
    else if c.toNat < 32 then none
    else (parseStrBody cs).map (fun p => (c :: p.1, p.2))

/-- Continue after a backslash inside a string literal. -/
def parseEsc : List Char → Option (List Char × List Char)
  | [] => none
  | e :: cs2 =>
    if e = 'u' then parseUEsc cs2
    else
      match escDecode e with
      | some ec => (parseStrBody cs2).map (fun p => (ec :: p.1, p.2))
      | none => none

/-- Continue after a `\u` escape introducer: four hex digits, and a high
surrogate must be followed by a matching low surrogate escape. -/
def parseUEsc : List Char → Option (List Char × List Char)
  | a :: b :: c2 :: d :: cs3 =>
    match hexVal4 a b c2 d with
    | none => none
    | some n =>
      if 55296 ≤ n ∧ n ≤ 56319 then parseLowSurr n cs3
      else if 56320 ≤ n ∧ n ≤ 57343 then none
      else (parseStrBody cs3).map (fun p => (Char.ofNat n :: p.1, p.2))
  | _ => none

/-- Continue after a high surrogate escape of value `n`: expect the low
surrogate escape and combine the pair into one character. -/
def parseLowSurr (n : Nat) : List Char → Option (List Char × List Char)
  | e2 :: u2 :: a2 :: b2 :: c3 :: d2 :: cs4 =>
    if e2 = '\\' ∧ u2 = 'u' then
      match hexVal4 a2 b2 c3 d2 with
      | none => none
      | some m =>
        if 56320 ≤ m ∧ m ≤ 57343 then
          (parseStrBody cs4).map
            (fun p => (Char.ofNat (65536 + (n - 55296) * 1024 + (m - 56320)) :: p.1, p.2))
        else none
    else none
  | _ => none
end

mutual
/-- Fuel-based recursive-descent JSON value parser modelling `json.loads`:
skips leading whitespace, then dispatches on the first character.  Returns
the parsed value and the unconsumed input. -/
def parseV : Nat → List Char → Option (PyVal × List Char)
  | 0, _ => none
  | f + 1, cs =>
    match skipWs cs with
    | [] => none
    | c :: cs' =>
      if c = 'n' then
        match cs' with
        | 'u' :: 'l' :: 'l' :: r => some (.pynone, r)
        | _ => none
      else if c = 't' then
        match cs' with
        | 'r' :: 'u' :: 'e' :: r => some (.pybool true, r)
        | _ => none
      else if c = 'f' then
        match cs' with
        | 'a' :: 'l' :: 's' :: 'e' :: r => some (.pybool false, r)
        | _ => none
      else if c = '"' then
        (parseStrBody cs').map (fun p => (.pystr ⟨p.1⟩, p.2))
      else if c = '[' then
        (parseAfterBracket f (skipWs cs')).map (fun p => (.pylist p.1, p.2))
      else if c = '{' then
        (parseAfterBrace f (skipWs cs')).map (fun p => (.pydict p.1, p.2))
      else
        (parseIntTok (c :: cs')).map (fun p => (.pyint p.1, p.2))

/-- Continue after an opening bracket (whitespace already skipped):
either an immediately closing empty array or a nonempty element list. -/
def parseAfterBracket (f : Nat) : List Char → Option (List PyVal × List Char)
  | [] => none
  | d :: ds => if d = ']' then some ([], ds) else parseItems f (d :: ds)

/-- Continue after an opening brace (whitespace already skipped):
either an immediately closing empty object or a nonempty member list. -/
def parseAfterBrace (f : Nat) : List Char → Option (List (String × PyVal) × List Char)
  | [] => none
  | d :: ds => if d = '}' then some ([], ds) else parseMembers f (d :: ds)

/-- Parse the elements of a nonempty JSON array after the opening
bracket, consuming the closing bracket. -/
def parseItems : Nat → List Char → Option (List PyVal × List Char)
  | 0, _ => none
  | f + 1, cs => do
    let (v, r) ← parseV f cs
    match skipWs r with
    | ',' :: r2 => (parseItems f r2).map (fun p => (v :: p.1, p.2))
    | ']' :: r2 => some ([v], r2)
    | _ => none

/-- Parse the members of a nonempty JSON object after the opening brace,
consuming the closing brace. -/
def parseMembers : Nat → List Char → Option (List (String × PyVal) × List Char)
  | 0, _ => none
  | f + 1, cs =>
    match skipWs cs with
    | '"' :: cs' => do
      let (kc, r) ← parseStrBody cs'
      match skipWs r with
      | ':' :: r2 => do
        let (v, r3) ← parseV f r2
        match skipWs r3 with
        | ',' :: r4 => (parseMembers f r4).map (fun p => ((⟨kc⟩, v) :: p.1, p.2))
        | '}' :: r4 => some ([(⟨kc⟩, v)], r4)
        | _ => none
      | _ => none
    | _ => none
end

/-- Model of `json.loads`: parse one value and require that only
whitespace remains. -/
def loads (s : String) : Except Unit PyVal :=
  match parseV (s.data.length + 1) s.data with
  | some (v, rest) => if skipWs rest = [] then .ok v else .error ()
  | none => .error ()

/-- UTF-8 bytes of one character. -/
def utf8EncodeChar (c : Char) : List Nat :=
  let v := c.toNat
  if v < 128 then [v]
  else if v < 2048 then [192 + v / 64, 128 + v % 64]
  else if v < 65536 then [224 + v / 4096, 128 + v / 64 % 64, 128 + v % 64]
  else [240 + v / 262144, 128 + v / 4096 % 64, 128 + v / 64 % 64, 128 + v % 64]

/-- UTF-8 bytes of a string, as stored by a Redis SET of Python text. -/
def utf8Encode (s : String) : List Nat :=
  (s.data.map utf8EncodeChar).flatten

/-- UTF-8 continuation byte. -/
def isCont (b : Nat) : Bool := 128 ≤ b && b ≤ 191

mutual
/-- Strict UTF-8 decoder (overlong encodings, surrogates and
out-of-range values rejected), as Python `bytes.decode` behaves. -/
def utf8DecodeList : List Nat → Option (List Char)
  | [] => some []
  | b :: bs =>
    if b < 128 then (utf8DecodeList bs).map (fun cs => Char.ofNat b :: cs)
    else if 194 ≤ b ∧ b ≤ 223 then utf8Dec2 b bs
    else if 224 ≤ b ∧ b ≤ 239 then utf8Dec3 b bs
    else if 240 ≤ b ∧ b ≤ 244 then utf8Dec4 b bs
    else none

/-- Continuation of a two-byte UTF-8 sequence with lead byte `b`. -/
def utf8Dec2 (b : Nat) : List Nat → Option (List Char)
  | b2 :: bs2 =>
    if isCont b2 then
      (utf8DecodeList bs2).map (fun cs => Char.ofNat ((b - 192) * 64 + (b2 - 128)) :: cs)
    else none
  | _ => none

/-- Continuation of a three-byte UTF-8 sequence with lead byte `b`. -/
def utf8Dec3 (b : Nat) : List Nat → Option (List Char)
  | b2 :: b3 :: bs3 =>
    let v := (b - 224) * 4096 + (b2 - 128) * 64 + (b3 - 128)
    if isCont b2 ∧ isCont b3 ∧ 2048 ≤ v ∧ (v < 55296 ∨ 57343 < v) then
      (utf8DecodeList bs3).map (fun cs => Char.ofNat v :: cs)
    else none
  | _ => none

/-- Continuation of a four-byte UTF-8 sequence with lead byte `b`. -/
def utf8Dec4 (b : Nat) : List Nat → Option (List Char)
  | b2 :: b3 :: b4 :: bs4 =>
    let v := (b - 240) * 262144 + (b2 - 128) * 4096 + (b3 - 128) * 64 + (b4 - 128)
    if isCont b2 ∧ isCont b3 ∧ isCont b4 ∧ 65536 ≤ v ∧ v < 1114112 then
      (utf8DecodeList bs4).map (fun cs => Char.ofNat v :: cs)
    else none
  | _ => none
end

/-- `bytes.decode` on UTF-8 input, failing on invalid byte sequences. -/
def utf8DecodeStr (bs : List Nat) : Except Unit String :=
  match utf8DecodeList bs with
  | some cs => .ok ⟨cs⟩
  | none => .error ()

/-- The body of the `try` block in `parse_input`: obtain text from the raw
value (decoding bytes as UTF-8) and parse it as JSON.  Either step can
raise. -/
def parse_inputBody (raw : Raw) : Except Unit PyVal :=
  match raw with
  | .rstr s => loads s
  | .rbytes b => do
      let s ← utf8DecodeStr b
      loads s

/-- Model of `parse_input` (runtime-app.py lines 60-69): `None` input
yields `None`; any exception from decoding or JSON parsing is caught and
turned into `None`. -/
def parse_input (raw_value : Option Raw) : PyVal :=
  match raw_value with
  | none => .pynone
  | some raw =>
    match parse_inputBody raw with
    | .ok v => v
    | .error _ => .pynone

/-- Model of the `Context` object (runtime-app.py lines 17-27): runtime
metadata shared with the user handler.  Timestamps are naturals. -/
structure Context where
  host : String
  port : Int
  input_key : String
  output_key : String
  function_getmtime : Nat
  last_execution : Option Nat
  env : List (String × PyVal)

/-- A loaded user handler: receives the decoded payload and the context,
and either returns a value or raises. -/
def HandlerFn : Type := PyVal → Context → Except Unit PyVal

/-- Observable actions of one poll cycle, in program order. -/
inductive Event where
  | getE (key : String)
  | decodeE (raw : Option Raw)
  | invokeE (payload : PyVal)
  | setE (key : String) (value : String)
  | logE (msg : String)
  | sleepE (seconds : Nat)

/-- The key-value store: keys map to byte blobs. -/
def Store : Type := String → Option (List Nat)

/-- A SET that succeeded: the written text is stored UTF-8 encoded. -/
def storeSet (st : Store) (key : String) (value : String) : Store :=
  fun k => if k = key then some (utf8Encode value) else st k

/-- External nondeterminism of one cycle: the outcome of the GET (either
a transport error or the bytes currently under the input key), whether a
reached SET succeeds, and the clock value `time.time()` would return at
the publish point. -/
structure Oracle where
  getResult : Except Unit (Option (List Nat))
  setOk : Bool
  pubTime : Nat

/-- The loop-owned mutable state: the context, the last observed raw
value, and the store contents. -/
structure World where
  context : Context
  last_raw_value : Option Raw
  store : Store

/-- One iteration of the poll loop (runtime-app.py lines 101-143):
read, change-detect, decode, execute, validate, publish, sleep.  Returns
the new world and the event trace of the cycle. -/
def runCycle (handler : HandlerFn) (w : World) (o : Oracle) : World × List Event :=
  match o.getResult with
  | .error _ =>
      (w, [.getE w.context.input_key,
           .logE "[error] Failed to read from Redis; retrying after delay",
           .sleepE 5])
  | .ok bytes =>
    let raw_value : Option Raw := bytes.map Raw.rbytes
    if raw_value = w.last_raw_value then
      (w, [.getE w.context.input_key, .sleepE 5])
    else
      let w1 : World := { w with last_raw_value := raw_value }
      let ev0 : List Event := [.getE w.context.input_key, .decodeE raw_value]
      let payload := parse_input raw_value
      if payload.isNone then (w1, ev0 ++ [.sleepE 5])
      else
        match handler payload w1.context with
        | .error _ =>
            (w1, ev0 ++ [.invokeE payload,
                         .logE "[error] Exception inside user handler",
                         .sleepE 5])
        | .ok result =>
          if result.isDict then
            match dumpsV result with
            | .error _ =>
                (w1, ev0 ++ [.invokeE payload,
                             .logE "[error] Failed to write handler output to Redis",
                             .sleepE 5])
            | .ok out =>
              let output_payload : String := ⟨out⟩
              if o.setOk then
                ({ w1 with
                     store := storeSet w1.store w1.context.output_key output_payload,
                     context := { w1.context with last_execution := some o.pubTime } },
                 ev0 ++ [.invokeE payload,
                         .setE w1.context.output_key output_payload,
                         .logE ("[info] Processed input and wrote output to key \x27"
                                  ++ w1.context.output_key ++ "\x27"),
                         .sleepE 5])
              else
                (w1, ev0 ++ [.invokeE payload,
                             .setE w1.context.output_key output_payload,
                             .logE "[error] Failed to write handler output to Redis",
                             .sleepE 5])
          else
            (w1, ev0 ++ [.invokeE payload,
                         .logE "[warn] Handler return is not a dict; skipping write",
                         .sleepE 5])

/-- Iterate the poll loop over a finite prefix of cycles, concatenating
the event traces. -/
def runCycles (handler : HandlerFn) : World → List Oracle → World × List Event
  | w, [] => (w, [])
  | w, o :: os =>
    let r1 := runCycle handler w o
    let r2 := runCycles handler r1.1 os
    (r2.1, r1.2 ++ r2.2)

/-- A module attribute as `getattr(module, "handler", None)` sees it:
either a callable or some non-callable value. -/
inductive PyAttr where
  | callableF (f : HandlerFn)
  | nonCallable (v : PyVal)

/-- The state of the user-module file and of executing it.
`spec_from_file_location` on an existing regular `.py` path always
yields a spec with a loader, so that step is modelled as succeeding. -/
structure UserModule where
  isfile : Bool
  execOk : Bool
  handlerAttr : Option PyAttr
  mtime : Nat

/-- Model of `load_user_handler` (runtime-app.py lines 34-57): exits
with code 1 when the file is absent, when executing the module raises,
or when the module exposes no callable `handler`. -/
def load_user_handler (m : UserModule) : Except Nat HandlerFn :=
  if m.isfile = false then .error 1
  else if m.execOk = false then .error 1
  else
    match m.handlerAttr with
    | some (.callableF f) => .ok f
    | _ => .error 1

/-- The environment variables the runtime reads. -/
structure Env where
  redis_host : Option String
  redis_port : Option String
  redis_input_key : Option String
  redis_output_key : Option String

/-- Model of Python `int()` on a decimal string: surrounding whitespace
is stripped, an optional sign precedes a nonempty digit run (numeric
underscore grouping is not modelled). -/
def pyParseInt (s : String) : Option Int :=
  let cs := (((s.data.dropWhile isWsC).reverse).dropWhile isWsC).reverse
  let core : List Char → Option Nat := fun ds =>
    if ds ≠ [] ∧ (takeDigits ds).2 = [] then some (digsToNat (takeDigits ds).1) else none
  match cs with
  | '-' :: ds => (core ds).map (fun n => -(n : Int))
  | '+' :: ds => (core ds).map (fun n => (n : Int))
  | ds => (core ds).map (fun n => (n : Int))

/-- Configuration resolved by a successful startup. -/
structure BootConfig where
  host : String
  port : Int
  input_key : String
  output_key : String
  handler : HandlerFn
  context : Context

/-- Startup phase of `main` (runtime-app.py lines 72-99): resolve the
environment, fail on a missing output key or unparsable port, load the
handler, and build the context. -/
def startup (env : Env) (m : UserModule) : Except Nat BootConfig :=
  let host := env.redis_host.getD "localhost"
  let port_str := env.redis_port.getD "6379"
  let input_key := env.redis_input_key.getD "metrics"
  match env.redis_output_key with
  | none => .error 1
  | some output_key =>
    match pyParseInt port_str with
    | none => .error 1
    | some port =>
      match load_user_handler m with
      | .error c => .error c
      | .ok handler =>
          .ok { host := host, port := port, input_key := input_key,
                output_key := output_key, handler := handler,
                context := { host := host, port := port, input_key := input_key,
                             output_key := output_key, function_getmtime := m.mtime,
                             last_execution := none, env := [] } }

/-- Outcome of running `main` over a finite prefix of cycles: a fatal
startup exit with its code, or the poll loop still running. -/
inductive RunResult where
  | exited (code : Nat) (events : List Event)
  | looping (w : World) (events : List Event)

/-- `main` over a finite prefix of cycles: startup, then the poll loop
with `last_raw_value` initially `None`. -/
def runMain (env : Env) (m : UserModule) (store0 : Store) (os : List Oracle) : RunResult :=
  match startup env m with
  | .error c => .exited c []
  | .ok cfg =>
    let w0 : World := { context := cfg.context, last_raw_value := none, store := store0 }
    let r := runCycles cfg.handler w0 os
    .looping r.1 r.2

/-- A Unicode scalar value is below the surrogate range or above it. -/
theorem charValid (c : Char) : c.toNat < 55296 ∨ (57343 < c.toNat ∧ c.toNat < 1114112) := c.valid

theorem toNat_ofNat_valid {n : Nat} (h : n.isValidChar) : (Char.ofNat n).toNat = n := by
  simp only [Char.ofNat, dif_pos h, Char.ofNatAux, Char.toNat, UInt32.toNat]
  simp

theorem ofNat_toNat_char (c : Char) : Char.ofNat c.toNat = c := by
  have h : (c.toNat).isValidChar := c.valid
  simp only [Char.ofNat, dif_pos h, Char.ofNatAux]
  cases c with
  | mk v hv =>
    cases v with
    | mk bv => congr 1

theorem char_ne_of_toNat_ne {a b : Char} (h : a.toNat ≠ b.toNat) : a ≠ b :=
  fun he => h (he ▸ rfl)

theorem toNat_digCh {d : Nat} (h : d < 10) : (digCh d).toNat = 48 + d :=
  toNat_ofNat_valid (Or.inl (by omega))

theorem digVal_digCh {d : Nat} (h : d < 10) : digVal (digCh d) = some d := by
  simp [digVal, toNat_digCh h]
  omega

/-- The digits produced by `natDigList` are decimal digits. -/
theorem natDigList_lt10 (n : Nat) : ∀ d ∈ natDigList n, d < 10 := by
  induction n using Nat.strong_induction_on with
  | _ n ih =>
    intro d hd
    rw [natDigList] at hd
    by_cases h : n < 10
    · rw [dif_pos h] at hd; simp at hd; omega
    · rw [dif_neg h] at hd
      simp at hd
      rcases hd with hd | hd
      · exact ih (n / 10) (Nat.div_lt_self (by omega) (by omega)) d hd
      · omega

theorem natDigList_ne_nil (n : Nat) : natDigList n ≠ [] := by
  rw [natDigList]
  by_cases h : n < 10
  · rw [dif_pos h]; simp
  · rw [dif_neg h]; simp

theorem foldl_natDigList (n : Nat) : ∀ acc : Nat,
    (natDigList n).foldl (fun a d => a * 10 + d) acc =
      acc * 10 ^ (natDigList n).length + n := by
  induction n using Nat.strong_induction_on with
  | _ n ih =>
    intro acc
    rw [natDigList]
    by_cases h : n < 10
    · rw [dif_pos h]; simp
    · rw [dif_neg h]
      simp only [List.foldl_append, List.length_append, List.foldl_cons, List.foldl_nil,
        List.length_cons, List.length_nil]
      rw [ih (n / 10) (Nat.div_lt_self (by omega) (by omega))]
      have hdm := Nat.div_add_mod n 10
      rw [pow_succ]
      ring_nf
      omega

theorem digsToNat_natDigList (n : Nat) : digsToNat (natDigList n) = n := by
  simp [digsToNat, foldl_natDigList]

/-- The input after a maximal digit run does not start with a digit. -/
def notDigitHead : List Char → Prop
  | [] => True
  | c :: _ => digVal c = none

theorem takeDigits_exact : ∀ (ds : List Nat), (∀ d ∈ ds, d < 10) →
    ∀ rest, notDigitHead rest →
    takeDigits (ds.map digCh ++ rest) = (ds, rest) := by
  intro ds
  induction ds with
  | nil =>
    intro _ rest hrest
    cases rest with
    | nil => rfl
    | cons c cs =>
      simp only [notDigitHead] at hrest
      simp [takeDigits, hrest]
  | cons d ds ih =>
    intro hlt rest hrest
    have hd : d < 10 := hlt d (by simp)
    simp only [List.map_cons, List.cons_append, takeDigits, digVal_digCh hd, List.append_eq]
    rw [ih (fun x hx => hlt x (by simp [hx])) rest hrest]

theorem parseUIntTok_natDigs (n : Nat) (rest : List Char) (hrest : notDigitHead rest) :
    parseUIntTok (natDigs n ++ rest) = some (n, rest) := by
  unfold parseUIntTok natDigs
  rw [takeDigits_exact (natDigList n) (natDigList_lt10 n) rest hrest]
  have hne := natDigList_ne_nil n
  cases hdl : natDigList n with
  | nil => exact absurd hdl hne
  | cons a as => simp [← hdl, digsToNat_natDigList]

theorem parseIntTok_encInt (i : Int) (rest : List Char) (hrest : notDigitHead rest) :
    parseIntTok (encInt i ++ rest) = some (i, rest) := by
  cases i with
  | ofNat n =>
    have h1 := parseUIntTok_natDigs n rest hrest
    cases hdl : natDigList n with
    | nil => exact absurd hdl (natDigList_ne_nil n)
    | cons d ds =>
      have hd : d < 10 := natDigList_lt10 n d (by rw [hdl]; simp)
      have hne : digCh d ≠ '-' :=
        char_ne_of_toNat_ne (by rw [toNat_digCh hd]; simp; omega)
      have hshape : natDigs n = digCh d :: List.map digCh ds := by
        simp [natDigs, hdl]
      simp only [encInt]
      rw [hshape]
      rw [hshape] at h1
      rw [List.cons_append] at h1
      simp only [List.cons_append, parseIntTok, if_neg hne]
      rw [h1]
      rfl
  | negSucc m =>
    have h1 := parseUIntTok_natDigs (m + 1) rest hrest
    simp only [encInt, List.cons_append, parseIntTok, if_pos rfl, h1]
    simp [Int.negSucc_eq]


theorem hexVal_hexCh {d : Nat} (h : d < 16) : hexVal (hexCh d) = some d := by
  interval_cases d <;> decide

theorem hexVal4_hex4 {n : Nat} (h : n < 65536) :
    hexVal4 (hexCh (n / 4096 % 16)) (hexCh (n / 256 % 16))
      (hexCh (n / 16 % 16)) (hexCh (n % 16)) = some n := by
  rw [hexVal4]
  rw [hexVal_hexCh (Nat.mod_lt _ (by omega)), hexVal_hexCh (Nat.mod_lt _ (by omega)),
    hexVal_hexCh (Nat.mod_lt _ (by omega)), hexVal_hexCh (Nat.mod_lt _ (by omega))]
  show some _ = some n
  congr 1
  omega

theorem parseStrBody_quote (cs : List Char) : parseStrBody ('"' :: cs) = some ([], cs) := by
  simp [parseStrBody]

theorem parseStrBody_lit (c : Char) (h1 : c ≠ '"') (h2 : c ≠ '\\') (h3 : ¬ c.toNat < 32)
    (cs : List Char) :
    parseStrBody (c :: cs) = (parseStrBody cs).map (fun p => (c :: p.1, p.2)) := by
  simp only [parseStrBody, if_neg h1, if_neg h2, if_neg h3]

theorem parseStrBody_simpleEsc (e ec : Char) (he : escDecode e = some ec) (hne : e ≠ 'u')
    (cs : List Char) :
    parseStrBody ('\\' :: e :: cs) = (parseStrBody cs).map (fun p => (ec :: p.1, p.2)) := by
  simp only [parseStrBody, if_neg (by decide : ¬('\\' : Char) = '"'), if_pos rfl,
    parseEsc, if_neg hne, he, if_true]

theorem parseStrBody_backslash (cs : List Char) :
    parseStrBody ('\\' :: cs) = parseEsc cs := by
  simp [parseStrBody]

theorem parseStrBody_uEsc (a b c2 d : Char) (n : Nat) (hv : hexVal4 a b c2 d = some n)
    (hn1 : ¬(55296 ≤ n ∧ n ≤ 56319)) (hn2 : ¬(56320 ≤ n ∧ n ≤ 57343)) (cs : List Char) :
    parseStrBody ('\\' :: 'u' :: a :: b :: c2 :: d :: cs) =
      (parseStrBody cs).map (fun p => (Char.ofNat n :: p.1, p.2)) := by
  rw [parseStrBody_backslash]
  have h2 : parseEsc ('u' :: a :: b :: c2 :: d :: cs) = parseUEsc (a :: b :: c2 :: d :: cs) := by
    simp [parseEsc]
  rw [h2]
  simp only [parseUEsc, hv]
  rw [if_neg hn1, if_neg hn2]

theorem parseStrBody_surr (a b c2 d a2 b2 c3 d2 : Char) (n m : Nat)
    (hv1 : hexVal4 a b c2 d = some n) (hn1 : 55296 ≤ n ∧ n ≤ 56319)
    (hv2 : hexVal4 a2 b2 c3 d2 = some m) (hm : 56320 ≤ m ∧ m ≤ 57343) (cs : List Char) :
    parseStrBody ('\\' :: 'u' :: a :: b :: c2 :: d :: '\\' :: 'u' :: a2 :: b2 :: c3 :: d2 :: cs) =
      (parseStrBody cs).map
        (fun p => (Char.ofNat (65536 + (n - 55296) * 1024 + (m - 56320)) :: p.1, p.2)) := by
  rw [parseStrBody_backslash]
  have h2 : parseEsc ('u' :: a :: b :: c2 :: d :: '\\' :: 'u' :: a2 :: b2 :: c3 :: d2 :: cs)
      = parseUEsc (a :: b :: c2 :: d :: '\\' :: 'u' :: a2 :: b2 :: c3 :: d2 :: cs) := by
    simp [parseEsc]
  rw [h2]
  simp only [parseUEsc, hv1]
  rw [if_pos hn1]
  simp only [parseLowSurr, hv2]
  simp [hm]

/-- Parsing inverts the JSON escaping of a single character. -/
theorem parseStrBody_escape (c : Char) (t : List Char) (acc : List Char × List Char)
    (h : parseStrBody t = some acc) :
    parseStrBody (escapeChar c ++ t) = some (c :: acc.1, acc.2) := by
  by_cases h34 : c = '"'
  · subst h34
    rw [show escapeChar '"' ++ t = '\\' :: '"' :: t by rfl,
      parseStrBody_simpleEsc '"' '"' rfl (by decide), h]
    rfl
  by_cases h92 : c = '\\'
  · subst h92
    rw [show escapeChar '\\' ++ t = '\\' :: '\\' :: t by rfl,
      parseStrBody_simpleEsc '\\' '\\' rfl (by decide), h]
    rfl
  by_cases h8 : c.toNat = 8
  · have hc : c = Char.ofNat 8 := by rw [← ofNat_toNat_char c, h8]
    subst hc
    rw [show escapeChar (Char.ofNat 8) ++ t = '\\' :: 'b' :: t by rfl,
      parseStrBody_simpleEsc 'b' (Char.ofNat 8) rfl (by decide), h]
    rfl
  by_cases h9 : c.toNat = 9
  · have hc : c = Char.ofNat 9 := by rw [← ofNat_toNat_char c, h9]
    subst hc
    rw [show escapeChar (Char.ofNat 9) ++ t = '\\' :: 't' :: t by rfl,
      parseStrBody_simpleEsc 't' (Char.ofNat 9) rfl (by decide), h]
    rfl
  by_cases h10 : c.toNat = 10
  · have hc : c = Char.ofNat 10 := by rw [← ofNat_toNat_char c, h10]
    subst hc
    rw [show escapeChar (Char.ofNat 10) ++ t = '\\' :: 'n' :: t by rfl,
      parseStrBody_simpleEsc 'n' (Char.ofNat 10) rfl (by decide), h]
    rfl
  by_cases h12 : c.toNat = 12
  · have hc : c = Char.ofNat 12 := by rw [← ofNat_toNat_char c, h12]
    subst hc
    rw [show escapeChar (Char.ofNat 12) ++ t = '\\' :: 'f' :: t by rfl,
      parseStrBody_simpleEsc 'f' (Char.ofNat 12) rfl (by decide), h]
    rfl
  by_cases h13 : c.toNat = 13
  · have hc : c = Char.ofNat 13 := by rw [← ofNat_toNat_char c, h13]
    subst hc
    rw [show escapeChar (Char.ofNat 13) ++ t = '\\' :: 'r' :: t by rfl,
      parseStrBody_simpleEsc 'r' (Char.ofNat 13) rfl (by decide), h]
    rfl
  by_cases hpr : 32 ≤ c.toNat ∧ c.toNat ≤ 126
  · have he : escapeChar c = [c] := by
      simp [escapeChar, h34, h92, h8, h9, h10, h12, h13, hpr]
    rw [he, List.cons_append, List.nil_append,
      parseStrBody_lit c h34 h92 (by omega), h]
    rfl
  by_cases hbmp : c.toNat < 65536
  · have he : escapeChar c = uEsc c.toNat := by
      simp [escapeChar, h34, h92, h8, h9, h10, h12, h13, hpr, hbmp]
    have hval := charValid c
    rw [he, show uEsc c.toNat ++ t =
        '\\' :: 'u' :: hexCh (c.toNat / 4096 % 16) :: hexCh (c.toNat / 256 % 16) ::
          hexCh (c.toNat / 16 % 16) :: hexCh (c.toNat % 16) :: t by simp [uEsc, hex4],
      parseStrBody_uEsc _ _ _ _ c.toNat (hexVal4_hex4 hbmp)
        (by omega) (by omega), h, ofNat_toNat_char]
    rfl
  · have hval := charValid c
    have hge : 65536 ≤ c.toNat := by omega
    have hlt : c.toNat < 1114112 := by omega
    have hq : (c.toNat - 65536) / 1024 < 1024 := by omega
    have hr : (c.toNat - 65536) % 1024 < 1024 := by omega
    have he : escapeChar c =
        uEsc (55296 + (c.toNat - 65536) / 1024) ++ uEsc (56320 + (c.toNat - 65536) % 1024) := by
      simp [escapeChar, h34, h92, h8, h9, h10, h12, h13, hpr, hbmp]
    rw [he, show (uEsc (55296 + (c.toNat - 65536) / 1024) ++
          uEsc (56320 + (c.toNat - 65536) % 1024)) ++ t =
        '\\' :: 'u' :: hexCh ((55296 + (c.toNat - 65536) / 1024) / 4096 % 16) ::
          hexCh ((55296 + (c.toNat - 65536) / 1024) / 256 % 16) ::
          hexCh ((55296 + (c.toNat - 65536) / 1024) / 16 % 16) ::
          hexCh ((55296 + (c.toNat - 65536) / 1024) % 16) ::
        '\\' :: 'u' :: hexCh ((56320 + (c.toNat - 65536) % 1024) / 4096 % 16) ::
          hexCh ((56320 + (c.toNat - 65536) % 1024) / 256 % 16) ::
          hexCh ((56320 + (c.toNat - 65536) % 1024) / 16 % 16) ::
          hexCh ((56320 + (c.toNat - 65536) % 1024) % 16) :: t by simp [uEsc, hex4],
      parseStrBody_surr _ _ _ _ _ _ _ _
        (55296 + (c.toNat - 65536) / 1024) (56320 + (c.toNat - 65536) % 1024)
        (hexVal4_hex4 (by omega)) (by omega) (hexVal4_hex4 (by omega)) (by omega), h]
    have harg : 65536 + (55296 + (c.toNat - 65536) / 1024 - 55296) * 1024 +
        (56320 + (c.toNat - 65536) % 1024 - 56320) = c.toNat := by omega
    rw [harg, ofNat_toNat_char]
    rfl

/-- Parsing inverts the JSON escaping of a character list. -/
theorem parseStrBody_escList (cs : List Char) : ∀ t : List Char,
    parseStrBody ((cs.map escapeChar).flatten ++ '"' :: t) = some (cs, t) := by
  induction cs with
  | nil => intro t; simpa using parseStrBody_quote t
  | cons c cs ih =>
    intro t
    have step := parseStrBody_escape c ((cs.map escapeChar).flatten ++ '"' :: t) (cs, t) (ih t)
    simpa using step
theorem string_mk_data (s : String) : (⟨s.data⟩ : String) = s := rfl

theorem skipWs_cons (c : Char) (cs : List Char) (h : isWsC c = false) :
    skipWs (c :: cs) = c :: cs := by simp [skipWs, h]

theorem skipWs_sp (cs : List Char) : skipWs (' ' :: cs) = skipWs cs := by
  simp [skipWs, isWsC]

theorem parseV_ws_cons (f : Nat) (cs : List Char) : parseV f (' ' :: cs) = parseV f cs := by
  cases f with
  | zero => simp [parseV]
  | succ g => simp only [parseV, skipWs_sp]

theorem parseItems_ws (f : Nat) (cs : List Char) : parseItems f (' ' :: cs) = parseItems f cs := by
  cases f with
  | zero => simp [parseItems]
  | succ g => simp only [parseItems, parseV_ws_cons]

theorem parseMembers_ws (f : Nat) (cs : List Char) :
    parseMembers f (' ' :: cs) = parseMembers f cs := by
  cases f with
  | zero => simp [parseMembers]
  | succ g => simp only [parseMembers, skipWs_sp]

theorem notDigitHead_nil : notDigitHead [] := trivial

theorem notDigitHead_cons {c : Char} (h : digVal c = none) (xs : List Char) :
    notDigitHead (c :: xs) := h

theorem digCh_ne {d : Nat} (h : d < 10) (c : Char) (hc : c.toNat < 48 ∨ 57 < c.toNat) :
    digCh d ≠ c :=
  char_ne_of_toNat_ne (by rw [toNat_digCh h]; omega)

theorem isWsC_digCh {d : Nat} (h : d < 10) : isWsC (digCh d) = false := by
  simp [isWsC]
  exact ⟨⟨⟨digCh_ne h ' ' (by decide), digCh_ne h '\t' (by decide)⟩,
    digCh_ne h '\n' (by decide)⟩, digCh_ne h '\r' (by decide)⟩

mutual
/-- Parser depth needed by `parseV` for a value. -/
def depthV : PyVal → Nat
  | .pylist xs => 1 + depthL xs
  | .pydict kvs => 1 + depthM kvs
  | _ => 1

/-- Parser depth needed by `parseItems` for an element list. -/
def depthL : List PyVal → Nat
  | [] => 0
  | x :: xs => 1 + max (depthV x) (depthL xs)

/-- Parser depth needed by `parseMembers` for a member list. -/
def depthM : List (String × PyVal) → Nat
  | [] => 0
  | (_, v) :: kvs => 1 + max (depthV v) (depthM kvs)
end

theorem depthV_pos (v : PyVal) : 1 ≤ depthV v := by
  cases v <;> simp [depthV]

/-- Every `dumps` output starts with a non-whitespace character that is
not a closing bracket. -/
theorem dumpsV_head (v : PyVal) (s : List Char) (h : dumpsV v = .ok s) :
    ∃ c t, s = c :: t ∧ isWsC c = false ∧ c ≠ ']' ∧ c ≠ '}' := by
  cases v with
  | pynone =>
    simp only [dumpsV, Except.ok.injEq] at h
    exact ⟨'n', _, h.symm, by decide, by decide, by decide⟩
  | pybool b =>
    cases b with
    | true =>
      simp only [dumpsV, Except.ok.injEq] at h
      exact ⟨'t', _, h.symm, by decide, by decide, by decide⟩
    | false =>
      simp only [dumpsV, Except.ok.injEq] at h
      exact ⟨'f', _, h.symm, by decide, by decide, by decide⟩
  | pyint n =>
    simp only [dumpsV, Except.ok.injEq] at h
    cases n with
    | ofNat m =>
      cases hdl : natDigList m with
      | nil => exact absurd hdl (natDigList_ne_nil m)
      | cons d ds =>
        have hdlt : d < 10 := natDigList_lt10 m d (by rw [hdl]; simp)
        refine ⟨digCh d, List.map digCh ds, ?_, isWsC_digCh hdlt,
          digCh_ne hdlt ']' (by decide), digCh_ne hdlt '}' (by decide)⟩
        rw [← h]
        simp [encInt, natDigs, hdl]
    | negSucc m =>
      exact ⟨'-', _, h.symm, by decide, by decide, by decide⟩
  | pystr str =>
    simp only [dumpsV, Except.ok.injEq] at h
    exact ⟨'"', (str.data.map escapeChar).flatten ++ ['"'],
      by rw [← h]; simp [encStr], by decide, by decide, by decide⟩
  | pylist xs =>
    cases hi : dumpsItems xs with
    | error e => simp [dumpsV, hi, Bind.bind, Except.bind] at h
    | ok inner =>
      simp only [dumpsV, hi] at h
      refine ⟨'[', inner ++ [']'], ?_, by decide, by decide, by decide⟩
      cases h
      rfl
  | pydict kvs =>
    cases hi : dumpsMembers kvs with
    | error e => simp [dumpsV, hi, Bind.bind, Except.bind] at h
    | ok inner =>
      simp only [dumpsV, hi] at h
      refine ⟨'{', inner ++ ['}'], ?_, by decide, by decide, by decide⟩
      cases h
      rfl
  | pyobj tag => simp [dumpsV] at h

/-- The items encoding of a nonempty array starts like the encoding of
its first element. -/
theorem dumpsItems_head (xs : List PyVal) (hne : xs ≠ []) (s : List Char)
    (h : dumpsItems xs = .ok s) :
    ∃ c t, s = c :: t ∧ isWsC c = false ∧ c ≠ ']' ∧ c ≠ '}' := by
  match xs, hne with
  | [x], _ =>
    have hx : dumpsV x = .ok s := by simpa [dumpsItems] using h
    exact dumpsV_head x s hx
  | x :: y :: tl, _ =>
    cases hx : dumpsV x with
    | error e => simp [dumpsItems, hx, Bind.bind, Except.bind] at h
    | ok dx =>
      cases hr : dumpsItems (y :: tl) with
      | error e => simp [dumpsItems, hx, hr, Bind.bind, Except.bind, Functor.map, Except.map] at h
      | ok drest =>
        simp only [dumpsItems, hx, hr] at h
        obtain ⟨c, t, hdx, hws, h1, h2⟩ := dumpsV_head x dx hx
        refine ⟨c, t ++ ',' :: ' ' :: drest, ?_, hws, h1, h2⟩
        cases h
        simp [hdx]

theorem skipWs_nws {c : Char} (h : isWsC c = false) :
    ∀ cs, skipWs (c :: cs) = c :: cs := fun cs => by
  simp [skipWs, h]

mutual
/-- `loads` inverts `dumps`: parsing an encoded value consumes exactly the
encoding and returns the value, provided enough fuel and a remainder that
does not continue a number token. -/
theorem parseV_dumpsV : ∀ (v : PyVal) (s : List Char), dumpsV v = .ok s →
    ∀ (f : Nat), depthV v ≤ f → ∀ (rest : List Char), notDigitHead rest →
    parseV f (s ++ rest) = some (v, rest)
  | .pynone, s, h, f, hf, rest, hrest => by
    obtain ⟨g, rfl⟩ : ∃ g, f = g + 1 := ⟨f - 1, by have := depthV_pos PyVal.pynone; omega⟩
    simp only [dumpsV, Except.ok.injEq] at h
    subst h
    simp [parseV, skipWs, isWsC]
  | .pybool true, s, h, f, hf, rest, hrest => by
    obtain ⟨g, rfl⟩ : ∃ g, f = g + 1 := ⟨f - 1, by have := depthV_pos (PyVal.pybool true); omega⟩
    simp only [dumpsV, Except.ok.injEq] at h
    subst h
    simp [parseV, skipWs, isWsC]
  | .pybool false, s, h, f, hf, rest, hrest => by
    obtain ⟨g, rfl⟩ : ∃ g, f = g + 1 := ⟨f - 1, by have := depthV_pos (PyVal.pybool false); omega⟩
    simp only [dumpsV, Except.ok.injEq] at h
    subst h
    simp [parseV, skipWs, isWsC]
  | .pyint n, s, h, f, hf, rest, hrest => by
    obtain ⟨g, rfl⟩ : ∃ g, f = g + 1 := ⟨f - 1, by have := depthV_pos (PyVal.pyint n); omega⟩
    simp only [dumpsV, Except.ok.injEq] at h
    subst h
    have htok := parseIntTok_encInt n rest hrest
    cases n with
    | ofNat m =>
      cases hdl : natDigList m with
      | nil => exact absurd hdl (natDigList_ne_nil m)
      | cons d ds =>
        have hdlt : d < 10 := natDigList_lt10 m d (by rw [hdl]; simp)
        have hshape : encInt (Int.ofNat m) = digCh d :: List.map digCh ds := by
          simp [encInt, natDigs, hdl]
        rw [hshape, List.cons_append] at htok ⊢
        simp only [parseV, skipWs_nws (isWsC_digCh hdlt),
          if_neg (digCh_ne hdlt 'n' (by decide)), if_neg (digCh_ne hdlt 't' (by decide)),
          if_neg (digCh_ne hdlt 'f' (by decide)), if_neg (digCh_ne hdlt '"' (by decide)),
          if_neg (digCh_ne hdlt '[' (by decide)), if_neg (digCh_ne hdlt '{' (by decide)),
          htok]
        rfl
    | negSucc m =>
      have hshape : encInt (Int.negSucc m) = '-' :: natDigs (m + 1) := by simp [encInt]
      rw [hshape, List.cons_append] at htok ⊢
      simp only [parseV, skipWs_nws (by decide : isWsC '-' = false)]
      rw [if_neg (by decide : ¬('-' : Char) = 'n'), if_neg (by decide : ¬('-' : Char) = 't'),
        if_neg (by decide : ¬('-' : Char) = 'f'), if_neg (by decide : ¬('-' : Char) = '"'),
        if_neg (by decide : ¬('-' : Char) = '['), if_neg (by decide : ¬('-' : Char) = '{'),
        htok]
      rfl
  | .pystr str, s, h, f, hf, rest, hrest => by
    obtain ⟨g, rfl⟩ : ∃ g, f = g + 1 := ⟨f - 1, by have := depthV_pos (PyVal.pystr str); omega⟩
    simp only [dumpsV, Except.ok.injEq] at h
    subst h
    rw [show encStr str ++ rest
        = '"' :: ((str.data.map escapeChar).flatten ++ '"' :: rest) by simp [encStr]]
    simp only [parseV, skipWs_nws (by decide : isWsC '"' = false), if_true,
      parseStrBody_escList]
    rfl
  | .pylist xs, s, h, f, hf, rest, hrest => by
    obtain ⟨g, rfl⟩ : ∃ g, f = g + 1 := ⟨f - 1, by have := depthV_pos (PyVal.pylist xs); omega⟩
    cases hi : dumpsItems xs with
    | error e => simp [dumpsV, hi, Bind.bind, Except.bind] at h
    | ok inner =>
      simp only [dumpsV, hi] at h
      have hs : s = '[' :: inner ++ [']'] := by cases h; rfl
      subst hs
      rw [show ('[' :: inner ++ [']']) ++ rest = '[' :: (inner ++ ']' :: rest) by simp]
      simp only [parseV, skipWs_nws (by decide : isWsC '[' = false), if_true]
      cases xs with
      | nil =>
        have hin : inner = [] := by simpa [dumpsItems] using hi
        subst hin
        simp [parseAfterBracket, skipWs, isWsC]
      | cons x tl =>
        obtain ⟨c, t, hin, hws, hbr, _⟩ := dumpsItems_head (x :: tl) (by simp) inner hi
        subst hin
        rw [show (c :: t) ++ ']' :: rest = c :: (t ++ ']' :: rest) by simp]
        rw [skipWs_nws hws]
        simp only [parseAfterBracket, if_neg hbr]
        rw [show c :: (t ++ ']' :: rest) = (c :: t) ++ ']' :: rest by simp]
        rw [parseItems_dumpsItems (x :: tl) (c :: t) (by simp) hi g
          (by have hd : depthV (.pylist (x :: tl)) = 1 + depthL (x :: tl) := by simp [depthV]
              omega) rest]
        rfl
  | .pydict kvs, s, h, f, hf, rest, hrest => by
    obtain ⟨g, rfl⟩ : ∃ g, f = g + 1 := ⟨f - 1, by have := depthV_pos (PyVal.pydict kvs); omega⟩
    cases hi : dumpsMembers kvs with
    | error e => simp [dumpsV, hi, Bind.bind, Except.bind] at h
    | ok inner =>
      simp only [dumpsV, hi] at h
      have hs : s = '{' :: inner ++ ['}'] := by cases h; rfl
      subst hs
      rw [show ('{' :: inner ++ ['}']) ++ rest = '{' :: (inner ++ '}' :: rest) by simp]
      simp only [parseV, skipWs_nws (by decide : isWsC '{' = false), if_true]
      cases kvs with
      | nil =>
        have hin : inner = [] := by simpa [dumpsMembers] using hi
        subst hin
        simp [parseAfterBrace, skipWs, isWsC]
      | cons kv tl =>
        have hhead : ∃ t, inner = '"' :: t := by
          obtain ⟨k, v⟩ := kv
          cases tl with
          | nil =>
            cases hv : dumpsV v with
            | error e => simp [dumpsMembers, hv, Bind.bind, Except.bind] at hi
            | ok dv =>
              simp only [dumpsMembers, hv] at hi
              cases hi
              exact ⟨(k.data.map escapeChar).flatten ++ '"' :: ':' :: ' ' :: dv,
                by simp [encStr]⟩
          | cons kv2 tl2 =>
            cases hv : dumpsV v with
            | error e => simp [dumpsMembers, hv, Bind.bind, Except.bind] at hi
            | ok dv =>
              cases hr : dumpsMembers (kv2 :: tl2) with
              | error e =>
                simp [dumpsMembers, hv, hr, Bind.bind, Except.bind, Functor.map,
                  Except.map] at hi
              | ok dr =>
                simp only [dumpsMembers, hv, hr] at hi
                cases hi
                exact ⟨(k.data.map escapeChar).flatten
                    ++ '"' :: ':' :: ' ' :: (dv ++ ',' :: ' ' :: dr),
                  by simp [encStr]⟩
        obtain ⟨t, hin⟩ := hhead
        subst hin
        rw [show ('"' :: t) ++ '}' :: rest = '"' :: (t ++ '}' :: rest) by simp]
        rw [skipWs_nws (by decide : isWsC '"' = false)]
        simp only [parseAfterBrace, if_neg (by decide : ¬('"' : Char) = '}')]
        rw [show '"' :: (t ++ '}' :: rest) = ('"' :: t) ++ '}' :: rest by simp]
        rw [parseMembers_dumpsMembers (kv :: tl) ('"' :: t) (by simp) hi g
          (by have hd : depthV (.pydict (kv :: tl)) = 1 + depthM (kv :: tl) := by simp [depthV]
              omega) rest]
        rfl
  | .pyobj tag, s, h, f, hf, rest, hrest => by simp [dumpsV] at h
termination_by v => sizeOf v

theorem parseItems_dumpsItems : ∀ (xs : List PyVal) (s : List Char), xs ≠ [] →
    dumpsItems xs = .ok s → ∀ (f : Nat), depthL xs ≤ f → ∀ (rest : List Char),
    parseItems f (s ++ ']' :: rest) = some (xs, rest)
  | [], _, hne, _, _, _, _ => absurd rfl hne
  | [x], s, hne, h, f, hf, rest => by
    have hdep : depthL [x] = 1 + max (depthV x) (depthL []) := by simp [depthL]
    obtain ⟨g, rfl⟩ : ∃ g, f = g + 1 := ⟨f - 1, by omega⟩
    have hxg : depthV x ≤ g := by
      have := Nat.le_max_left (depthV x) (depthL ([] : List PyVal)); omega
    have hx : dumpsV x = .ok s := by simpa [dumpsItems] using h
    simp only [parseItems]
    rw [parseV_dumpsV x s hx g hxg (']' :: rest) (notDigitHead_cons (by decide) _)]
    simp [Option.bind_eq_bind, Option.some_bind, skipWs_nws (by decide : isWsC ']' = false)]
  | x :: y :: tl2, s, hne, h, f, hf, rest => by
    have hdep : depthL (x :: y :: tl2) = 1 + max (depthV x) (depthL (y :: tl2)) := by
      simp [depthL]
    obtain ⟨g, rfl⟩ : ∃ g, f = g + 1 := ⟨f - 1, by omega⟩
    have hxg : depthV x ≤ g := by
      have := Nat.le_max_left (depthV x) (depthL (y :: tl2)); omega
    have htg : depthL (y :: tl2) ≤ g := by
      have := Nat.le_max_right (depthV x) (depthL (y :: tl2)); omega
    cases hx : dumpsV x with
    | error e => simp [dumpsItems, hx, Bind.bind, Except.bind] at h
    | ok dx =>
      cases hr : dumpsItems (y :: tl2) with
      | error e =>
        simp [dumpsItems, hx, hr, Bind.bind, Except.bind, Functor.map, Except.map] at h
      | ok drest =>
        simp only [dumpsItems, hx, hr] at h
        have hs : s = dx ++ ',' :: ' ' :: drest := by cases h; rfl
        subst hs
        simp only [parseItems]
        have h1 : parseV g ((dx ++ ',' :: ' ' :: drest) ++ ']' :: rest)
            = some (x, ',' :: ' ' :: (drest ++ ']' :: rest)) := by
          have hh := parseV_dumpsV x dx hx g hxg (',' :: ' ' :: (drest ++ ']' :: rest))
            (notDigitHead_cons (by decide) _)
          rw [← hh]
          simp
        rw [h1]
        simp only [Option.bind_eq_bind, Option.some_bind,
          skipWs_nws (by decide : isWsC ',' = false)]
        rw [parseItems_ws]
        rw [parseItems_dumpsItems (y :: tl2) drest (by simp) hr g htg rest]
        rfl
termination_by xs => sizeOf xs

theorem parseMembers_dumpsMembers : ∀ (kvs : List (String × PyVal)) (s : List Char),
    kvs ≠ [] → dumpsMembers kvs = .ok s → ∀ (f : Nat), depthM kvs ≤ f →
    ∀ (rest : List Char), parseMembers f (s ++ '}' :: rest) = some (kvs, rest)
  | [], _, hne, _, _, _, _ => absurd rfl hne
  | [(k, v)], s, hne, h, f, hf, rest => by
    have hdep : depthM [(k, v)] = 1 + max (depthV v) (depthM []) := by simp [depthM]
    obtain ⟨g, rfl⟩ : ∃ g, f = g + 1 := ⟨f - 1, by omega⟩
    have hvg : depthV v ≤ g := by
      have := Nat.le_max_left (depthV v) (depthM ([] : List (String × PyVal))); omega
    cases hv : dumpsV v with
    | error e => simp [dumpsMembers, hv, Bind.bind, Except.bind] at h
    | ok dv =>
      simp only [dumpsMembers, hv] at h
      have hs : s = encStr k ++ ':' :: ' ' :: dv := by cases h; rfl
      subst hs
      simp only [parseMembers]
      rw [show (encStr k ++ ':' :: ' ' :: dv) ++ '}' :: rest
          = '"' :: ((k.data.map escapeChar).flatten
              ++ '"' :: (':' :: ' ' :: (dv ++ '}' :: rest))) by simp [encStr]]
      rw [skipWs_nws (by decide : isWsC '"' = false)]
      simp only [parseStrBody_escList, Option.bind_eq_bind, Option.some_bind,
        skipWs_nws (by decide : isWsC ':' = false), parseV_ws_cons]
      rw [parseV_dumpsV v dv hv g hvg ('}' :: rest) (notDigitHead_cons (by decide) _)]
      simp only [Option.bind_eq_bind, Option.some_bind,
        skipWs_nws (by decide : isWsC '}' = false)]
  | (k, v) :: kv2 :: tl2, s, hne, h, f, hf, rest => by
    have hdep : depthM ((k, v) :: kv2 :: tl2)
        = 1 + max (depthV v) (depthM (kv2 :: tl2)) := by simp [depthM]
    obtain ⟨g, rfl⟩ : ∃ g, f = g + 1 := ⟨f - 1, by omega⟩
    have hvg : depthV v ≤ g := by
      have := Nat.le_max_left (depthV v) (depthM (kv2 :: tl2)); omega
    have htg : depthM (kv2 :: tl2) ≤ g := by
      have := Nat.le_max_right (depthV v) (depthM (kv2 :: tl2)); omega
    cases hv : dumpsV v with
    | error e => simp [dumpsMembers, hv, Bind.bind, Except.bind] at h
    | ok dv =>
      cases hr : dumpsMembers (kv2 :: tl2) with
      | error e =>
        simp [dumpsMembers, hv, hr, Bind.bind, Except.bind, Functor.map, Except.map] at h
      | ok dr =>
        simp only [dumpsMembers, hv, hr] at h
        have hs : s = encStr k ++ ':' :: ' ' :: dv ++ ',' :: ' ' :: dr := by cases h; rfl
        subst hs
        simp only [parseMembers]
        rw [show (encStr k ++ ':' :: ' ' :: dv ++ ',' :: ' ' :: dr) ++ '}' :: rest
            = '"' :: ((k.data.map escapeChar).flatten
                ++ '"' :: (':' :: ' ' :: (dv
                    ++ ',' :: ' ' :: (dr ++ '}' :: rest)))) by simp [encStr]]
        rw [skipWs_nws (by decide : isWsC '"' = false)]
        simp only [parseStrBody_escList, Option.bind_eq_bind, Option.some_bind,
          skipWs_nws (by decide : isWsC ':' = false), parseV_ws_cons]
        rw [parseV_dumpsV v dv hv g hvg (',' :: ' ' :: (dr ++ '}' :: rest))
          (notDigitHead_cons (by decide) _)]
        simp only [Option.bind_eq_bind, Option.some_bind,
          skipWs_nws (by decide : isWsC ',' = false)]
        rw [parseMembers_ws]
        rw [parseMembers_dumpsMembers (kv2 :: tl2) dr (by simp) hr g htg rest]
        rfl
termination_by kvs => sizeOf kvs
end

theorem encStr_len (k : String) : (encStr k).length = (k.data.map escapeChar).flatten.length + 2 := by
  simp [encStr]

theorem encInt_len_pos (n : Int) : 1 ≤ (encInt n).length := by
  cases n with
  | ofNat m =>
    have := natDigList_ne_nil m
    simp [encInt, natDigs]
    cases hdl : natDigList m with
    | nil => exact absurd hdl this
    | cons d ds => simp [hdl]
  | negSucc m => simp [encInt]

mutual
/-- The parser depth of a value is bounded by the length of its encoding. -/
theorem depthV_le : ∀ (v : PyVal) (s : List Char), dumpsV v = .ok s → depthV v ≤ s.length
  | .pynone, s, h => by
    simp only [dumpsV, Except.ok.injEq] at h
    subst h
    simp [depthV]
  | .pybool true, s, h => by
    simp only [dumpsV, Except.ok.injEq] at h
    subst h
    simp [depthV]
  | .pybool false, s, h => by
    simp only [dumpsV, Except.ok.injEq] at h
    subst h
    simp [depthV]
  | .pyint n, s, h => by
    simp only [dumpsV, Except.ok.injEq] at h
    subst h
    have := encInt_len_pos n
    simp [depthV]
    omega
  | .pystr str, s, h => by
    simp only [dumpsV, Except.ok.injEq] at h
    subst h
    have := encStr_len str
    simp [depthV]
    omega
  | .pylist xs, s, h => by
    cases hi : dumpsItems xs with
    | error e => simp [dumpsV, hi, Bind.bind, Except.bind] at h
    | ok inner =>
      simp only [dumpsV, hi] at h
      have hs : s = '[' :: inner ++ [']'] := by cases h; rfl
      subst hs
      cases xs with
      | nil => simp [depthV, depthL]
      | cons x tl =>
        have hb := depthL_le (x :: tl) inner (by simp) hi
        have hd : depthV (.pylist (x :: tl)) = 1 + depthL (x :: tl) := by simp [depthV]
        simp only [List.length_cons, List.length_append, List.length_cons, List.length_nil]
        omega
  | .pydict kvs, s, h => by
    cases hi : dumpsMembers kvs with
    | error e => simp [dumpsV, hi, Bind.bind, Except.bind] at h
    | ok inner =>
      simp only [dumpsV, hi] at h
      have hs : s = '{' :: inner ++ ['}'] := by cases h; rfl
      subst hs
      cases kvs with
      | nil => simp [depthV, depthM]
      | cons kv tl =>
        have hb := depthM_le (kv :: tl) inner (by simp) hi
        have hd : depthV (.pydict (kv :: tl)) = 1 + depthM (kv :: tl) := by simp [depthV]
        simp only [List.length_cons, List.length_append, List.length_cons, List.length_nil]
        omega
  | .pyobj tag, s, h => by simp [dumpsV] at h
termination_by v => sizeOf v

theorem depthL_le : ∀ (xs : List PyVal) (s : List Char), xs ≠ [] →
    dumpsItems xs = .ok s → depthL xs ≤ s.length + 1
  | [], _, hne, _ => absurd rfl hne
  | [x], s, hne, h => by
    have hx : dumpsV x = .ok s := by simpa [dumpsItems] using h
    have hb := depthV_le x s hx
    have hd : depthL [x] = 1 + max (depthV x) (depthL []) := by simp [depthL]
    have h0 : depthL ([] : List PyVal) = 0 := by simp [depthL]
    have hm : max (depthV x) (depthL ([] : List PyVal)) ≤ s.length :=
      Nat.max_le.mpr ⟨hb, by omega⟩
    omega
  | x :: y :: tl2, s, hne, h => by
    cases hx : dumpsV x with
    | error e => simp [dumpsItems, hx, Bind.bind, Except.bind] at h
    | ok dx =>
      cases hr : dumpsItems (y :: tl2) with
      | error e =>
        simp [dumpsItems, hx, hr, Bind.bind, Except.bind, Functor.map, Except.map] at h
      | ok drest =>
        simp only [dumpsItems, hx, hr] at h
        have hs : s = dx ++ ',' :: ' ' :: drest := by cases h; rfl
        subst hs
        have hb1 := depthV_le x dx hx
        have hb2 := depthL_le (y :: tl2) drest (by simp) hr
        have hd : depthL (x :: y :: tl2) = 1 + max (depthV x) (depthL (y :: tl2)) := by
          simp [depthL]
        have hm : max (depthV x) (depthL (y :: tl2)) ≤ dx.length + drest.length + 1 :=
          Nat.max_le.mpr ⟨by omega, by omega⟩
        simp only [List.length_append, List.length_cons]
        omega
termination_by xs => sizeOf xs

theorem depthM_le : ∀ (kvs : List (String × PyVal)) (s : List Char), kvs ≠ [] →
    dumpsMembers kvs = .ok s → depthM kvs ≤ s.length + 1
  | [], _, hne, _ => absurd rfl hne
  | [(k, v)], s, hne, h => by
    cases hv : dumpsV v with
    | error e => simp [dumpsMembers, hv, Bind.bind, Except.bind] at h
    | ok dv =>
      simp only [dumpsMembers, hv] at h
      have hs : s = encStr k ++ ':' :: ' ' :: dv := by cases h; rfl
      subst hs
      have hb := depthV_le v dv hv
      have hd : depthM [(k, v)] = 1 + max (depthV v) (depthM []) := by simp [depthM]
      have h0 : depthM ([] : List (String × PyVal)) = 0 := by simp [depthM]
      have hm : max (depthV v) (depthM ([] : List (String × PyVal))) ≤ dv.length :=
        Nat.max_le.mpr ⟨hb, by omega⟩
      simp only [List.length_append, List.length_cons]
      omega
  | (k, v) :: kv2 :: tl2, s, hne, h => by
    cases hv : dumpsV v with
    | error e => simp [dumpsMembers, hv, Bind.bind, Except.bind] at h
    | ok dv =>
      cases hr : dumpsMembers (kv2 :: tl2) with
      | error e =>
        simp [dumpsMembers, hv, hr, Bind.bind, Except.bind, Functor.map, Except.map] at h
      | ok dr =>
        simp only [dumpsMembers, hv, hr] at h
        have hs : s = encStr k ++ ':' :: ' ' :: dv ++ ',' :: ' ' :: dr := by cases h; rfl
        subst hs
        have hb1 := depthV_le v dv hv
        have hb2 := depthM_le (kv2 :: tl2) dr (by simp) hr
        have hd : depthM ((k, v) :: kv2 :: tl2)
            = 1 + max (depthV v) (depthM (kv2 :: tl2)) := by simp [depthM]
        have hm : max (depthV v) (depthM (kv2 :: tl2)) ≤ dv.length + dr.length + 1 :=
          Nat.max_le.mpr ⟨by omega, by omega⟩
        simp only [List.length_append, List.length_cons]
        omega
termination_by kvs => sizeOf kvs
end

/-- `loads` inverts `dumps` whenever the encoding succeeded. -/
theorem loads_dumps (v : PyVal) (s : List Char) (h : dumpsV v = .ok s) :
    loads ⟨s⟩ = .ok v := by
  have hd : depthV v ≤ s.length + 1 := le_trans (depthV_le v s h) (by omega)
  have hp := parseV_dumpsV v s h (s.length + 1) hd [] trivial
  rw [List.append_nil] at hp
  simp only [loads]
  rw [hp]
  simp [skipWs]

/-- A character list within the ASCII range. -/
def allAscii (s : List Char) : Prop := ∀ c ∈ s, c.toNat < 128

theorem allAscii_nil : allAscii [] := by intro c hc; simp at hc

theorem allAscii_cons {c : Char} {cs : List Char} (h : c.toNat < 128) (hcs : allAscii cs) :
    allAscii (c :: cs) := by
  intro x hx
  rcases List.mem_cons.mp hx with hx | hx
  · subst hx; exact h
  · exact hcs x hx

theorem allAscii_append {a b : List Char} (ha : allAscii a) (hb : allAscii b) :
    allAscii (a ++ b) := by
  intro x hx
  rcases List.mem_append.mp hx with hx | hx
  · exact ha x hx
  · exact hb x hx

theorem hexCh_ascii {d : Nat} (h : d < 16) : (hexCh d).toNat < 128 := by
  interval_cases d <;> decide

theorem uEsc_ascii (n : Nat) : allAscii (uEsc n) := by
  refine allAscii_cons (by decide) (allAscii_cons (by decide) ?_)
  refine allAscii_cons (hexCh_ascii (Nat.mod_lt _ (by omega))) ?_
  refine allAscii_cons (hexCh_ascii (Nat.mod_lt _ (by omega))) ?_
  refine allAscii_cons (hexCh_ascii (Nat.mod_lt _ (by omega))) ?_
  exact allAscii_cons (hexCh_ascii (Nat.mod_lt _ (by omega))) allAscii_nil

theorem escapeChar_ascii (c : Char) : allAscii (escapeChar c) := by
  by_cases h34 : c = '"'
  · subst h34
    exact allAscii_cons (by decide) (allAscii_cons (by decide) allAscii_nil)
  by_cases h92 : c = '\\'
  · subst h92
    rw [show escapeChar '\\' = ['\\', '\\'] by rfl]
    exact allAscii_cons (by decide) (allAscii_cons (by decide) allAscii_nil)
  by_cases h8 : c.toNat = 8
  · rw [show escapeChar c = ['\\', 'b'] by simp [escapeChar, h34, h92, h8]]
    exact allAscii_cons (by decide) (allAscii_cons (by decide) allAscii_nil)
  by_cases h9 : c.toNat = 9
  · rw [show escapeChar c = ['\\', 't'] by simp [escapeChar, h34, h92, h8, h9]]
    exact allAscii_cons (by decide) (allAscii_cons (by decide) allAscii_nil)
  by_cases h10 : c.toNat = 10
  · rw [show escapeChar c = ['\\', 'n'] by simp [escapeChar, h34, h92, h8, h9, h10]]
    exact allAscii_cons (by decide) (allAscii_cons (by decide) allAscii_nil)
  by_cases h12 : c.toNat = 12
  · rw [show escapeChar c = ['\\', 'f'] by simp [escapeChar, h34, h92, h8, h9, h10, h12]]
    exact allAscii_cons (by decide) (allAscii_cons (by decide) allAscii_nil)
  by_cases h13 : c.toNat = 13
  · rw [show escapeChar c = ['\\', 'r'] by simp [escapeChar, h34, h92, h8, h9, h10, h12, h13]]
    exact allAscii_cons (by decide) (allAscii_cons (by decide) allAscii_nil)
  by_cases hpr : 32 ≤ c.toNat ∧ c.toNat ≤ 126
  · rw [show escapeChar c = [c] by simp [escapeChar, h34, h92, h8, h9, h10, h12, h13, hpr]]
    exact allAscii_cons (by omega) allAscii_nil
  by_cases hbmp : c.toNat < 65536
  · rw [show escapeChar c = uEsc c.toNat by
      simp [escapeChar, h34, h92, h8, h9, h10, h12, h13, hpr, hbmp]]
    exact uEsc_ascii _
  · rw [show escapeChar c = uEsc (55296 + (c.toNat - 65536) / 1024)
          ++ uEsc (56320 + (c.toNat - 65536) % 1024) by
      simp [escapeChar, h34, h92, h8, h9, h10, h12, h13, hpr, hbmp]]
    exact allAscii_append (uEsc_ascii _) (uEsc_ascii _)

theorem digCh_ascii {d : Nat} (h : d < 10) : (digCh d).toNat < 128 := by
  rw [toNat_digCh h]; omega

theorem natDigs_ascii (m : Nat) : allAscii (natDigs m) := by
  intro x hx
  simp only [natDigs, List.mem_map] at hx
  obtain ⟨d, hd, rfl⟩ := hx
  exact digCh_ascii (natDigList_lt10 m d hd)

theorem encInt_ascii (n : Int) : allAscii (encInt n) := by
  cases n with
  | ofNat m => exact natDigs_ascii m
  | negSucc m =>
    exact allAscii_cons (by decide) (natDigs_ascii (m + 1))

theorem encStr_ascii (k : String) : allAscii (encStr k) := by
  refine allAscii_cons (by decide) (allAscii_append ?_
    (allAscii_cons (by decide) allAscii_nil))
  intro x hx
  rw [List.mem_flatten] at hx
  obtain ⟨l, hl, hxl⟩ := hx
  rw [List.mem_map] at hl
  obtain ⟨c, _, rfl⟩ := hl
  exact escapeChar_ascii c x hxl

mutual
/-- `dumps` output is pure ASCII (the `ensure_ascii` behaviour). -/
theorem dumpsV_ascii : ∀ (v : PyVal) (s : List Char), dumpsV v = .ok s → allAscii s
  | .pynone, s, h => by
    simp only [dumpsV, Except.ok.injEq] at h
    subst h
    intro c hc
    fin_cases hc <;> decide
  | .pybool true, s, h => by
    simp only [dumpsV, Except.ok.injEq] at h
    subst h
    intro c hc
    fin_cases hc <;> decide
  | .pybool false, s, h => by
    simp only [dumpsV, Except.ok.injEq] at h
    subst h
    intro c hc
    fin_cases hc <;> decide
  | .pyint n, s, h => by
    simp only [dumpsV, Except.ok.injEq] at h
    subst h
    exact encInt_ascii n
  | .pystr str, s, h => by
    simp only [dumpsV, Except.ok.injEq] at h
    subst h
    exact encStr_ascii str
  | .pylist xs, s, h => by
    cases hi : dumpsItems xs with
    | error e => simp [dumpsV, hi, Bind.bind, Except.bind] at h
    | ok inner =>
      simp only [dumpsV, hi] at h
      have hs : s = '[' :: inner ++ [']'] := by cases h; rfl
      subst hs
      exact allAscii_cons (by decide) (allAscii_append (dumpsItems_ascii xs inner hi)
        (allAscii_cons (by decide) allAscii_nil))
  | .pydict kvs, s, h => by
    cases hi : dumpsMembers kvs with
    | error e => simp [dumpsV, hi, Bind.bind, Except.bind] at h
    | ok inner =>
      simp only [dumpsV, hi] at h
      have hs : s = '{' :: inner ++ ['}'] := by cases h; rfl
      subst hs
      exact allAscii_cons (by decide) (allAscii_append (dumpsMembers_ascii kvs inner hi)
        (allAscii_cons (by decide) allAscii_nil))
  | .pyobj tag, s, h => by simp [dumpsV] at h
termination_by v => sizeOf v

theorem dumpsItems_ascii : ∀ (xs : List PyVal) (s : List Char),
    dumpsItems xs = .ok s → allAscii s
  | [], s, h => by
    simp only [dumpsItems, Except.ok.injEq] at h
    subst h
    exact allAscii_nil
  | [x], s, h => by
    have hx : dumpsV x = .ok s := by simpa [dumpsItems] using h
    exact dumpsV_ascii x s hx
  | x :: y :: tl2, s, h => by
    cases hx : dumpsV x with
    | error e => simp [dumpsItems, hx, Bind.bind, Except.bind] at h
    | ok dx =>
      cases hr : dumpsItems (y :: tl2) with
      | error e =>
        simp [dumpsItems, hx, hr, Bind.bind, Except.bind, Functor.map, Except.map] at h
      | ok drest =>
        simp only [dumpsItems, hx, hr] at h
        have hs : s = dx ++ ',' :: ' ' :: drest := by cases h; rfl
        subst hs
        exact allAscii_append (dumpsV_ascii x dx hx)
          (allAscii_cons (by decide) (allAscii_cons (by decide)
            (dumpsItems_ascii (y :: tl2) drest hr)))
termination_by xs => sizeOf xs

theorem dumpsMembers_ascii : ∀ (kvs : List (String × PyVal)) (s : List Char),
    dumpsMembers kvs = .ok s → allAscii s
  | [], s, h => by
    simp only [dumpsMembers, Except.ok.injEq] at h
    subst h
    exact allAscii_nil
  | [(k, v)], s, h => by
    cases hv : dumpsV v with
    | error e => simp [dumpsMembers, hv, Bind.bind, Except.bind] at h
    | ok dv =>
      simp only [dumpsMembers, hv] at h
      have hs : s = encStr k ++ ':' :: ' ' :: dv := by cases h; rfl
      subst hs
      exact allAscii_append (encStr_ascii k)
        (allAscii_cons (by decide) (allAscii_cons (by decide) (dumpsV_ascii v dv hv)))
  | (k, v) :: kv2 :: tl2, s, h => by
    cases hv : dumpsV v with
    | error e => simp [dumpsMembers, hv, Bind.bind, Except.bind] at h
    | ok dv =>
      cases hr : dumpsMembers (kv2 :: tl2) with
      | error e =>
        simp [dumpsMembers, hv, hr, Bind.bind, Except.bind, Functor.map, Except.map] at h
      | ok dr =>
        simp only [dumpsMembers, hv, hr] at h
        have hs : s = encStr k ++ ':' :: ' ' :: dv ++ ',' :: ' ' :: dr := by cases h; rfl
        subst hs
        refine allAscii_append (allAscii_append (encStr_ascii k)
          (allAscii_cons (by decide) (allAscii_cons (by decide)
            (dumpsV_ascii v dv hv)))) ?_
        exact allAscii_cons (by decide) (allAscii_cons (by decide)
          (dumpsMembers_ascii (kv2 :: tl2) dr hr))
termination_by kvs => sizeOf kvs
end

theorem utf8EncodeChar_ascii {c : Char} (h : c.toNat < 128) : utf8EncodeChar c = [c.toNat] := by
  simp [utf8EncodeChar, h]

theorem utf8Encode_ascii (s : List Char) (h : allAscii s) :
    utf8Encode ⟨s⟩ = s.map Char.toNat := by
  induction s with
  | nil => rfl
  | cons c cs ih =>
    have hc : c.toNat < 128 := h c (by simp)
    have hcs : allAscii cs := fun x hx => h x (by simp [hx])
    have ih2 := ih hcs
    simp only [utf8Encode] at ih2 ⊢
    simp [utf8EncodeChar_ascii hc, ih2]

theorem utf8DecodeList_ascii (s : List Char) (h : allAscii s) :
    utf8DecodeList (s.map Char.toNat) = some s := by
  induction s with
  | nil => rfl
  | cons c cs ih =>
    have hc : c.toNat < 128 := h c (by simp)
    have hcs : allAscii cs := fun x hx => h x (by simp [hx])
    simp only [List.map_cons, utf8DecodeList, if_pos hc, ih hcs, Option.map_some',
      ofNat_toNat_char]

/-- Storing ASCII text through UTF-8 and decoding it is the identity. -/
theorem utf8_roundtrip_ascii (s : List Char) (h : allAscii s) :
    utf8DecodeStr (utf8Encode ⟨s⟩) = .ok ⟨s⟩ := by
  rw [utf8Encode_ascii s h]
  simp [utf8DecodeStr, utf8DecodeList_ascii s h]

/-- The decode step of the runtime recovers a value from the bytes that a
publish of that value stores. -/
theorem parse_input_dumps (v : PyVal) (s : List Char) (h : dumpsV v = .ok s) :
    parse_input (some (.rbytes (utf8Encode ⟨s⟩))) = v := by
  have hb : parse_inputBody (.rbytes (utf8Encode ⟨s⟩)) = .ok v := by
    rw [parse_inputBody]
    rw [utf8_roundtrip_ascii s (dumpsV_ascii v s h)]
    simp [Bind.bind, Except.bind, loads_dumps v s h]
  simp [parse_input, hb]


theorem runCycle_getErr (handler : HandlerFn) (w : World) (o : Oracle)
    (h : o.getResult = .error ()) :
    runCycle handler w o =
      (w, [.getE w.context.input_key,
           .logE "[error] Failed to read from Redis; retrying after delay",
           .sleepE 5]) := by
  simp [runCycle, h]

theorem runCycle_unchanged (handler : HandlerFn) (w : World) (o : Oracle)
    (b : Option (List Nat)) (h : o.getResult = .ok b)
    (he : b.map Raw.rbytes = w.last_raw_value) :
    runCycle handler w o = (w, [.getE w.context.input_key, .sleepE 5]) := by
  simp [runCycle, h, he]

theorem runCycle_badJson (handler : HandlerFn) (w : World) (o : Oracle)
    (b : Option (List Nat)) (h : o.getResult = .ok b)
    (hne : b.map Raw.rbytes ≠ w.last_raw_value)
    (hp : (parse_input (b.map Raw.rbytes)).isNone = true) :
    runCycle handler w o =
      ({ w with last_raw_value := b.map Raw.rbytes },
       [.getE w.context.input_key, .decodeE (b.map Raw.rbytes), .sleepE 5]) := by
  simp [runCycle, h, hne, hp]

theorem runCycle_handlerErr (handler : HandlerFn) (w : World) (o : Oracle)
    (b : Option (List Nat)) (h : o.getResult = .ok b)
    (hne : b.map Raw.rbytes ≠ w.last_raw_value)
    (hp : (parse_input (b.map Raw.rbytes)).isNone = false)
    (hh : handler (parse_input (b.map Raw.rbytes)) w.context = .error ()) :
    runCycle handler w o =
      ({ w with last_raw_value := b.map Raw.rbytes },
       [.getE w.context.input_key, .decodeE (b.map Raw.rbytes),
        .invokeE (parse_input (b.map Raw.rbytes)),
        .logE "[error] Exception inside user handler", .sleepE 5]) := by
  simp [runCycle, h, hne, hp, hh]

theorem runCycle_nonDict (handler : HandlerFn) (w : World) (o : Oracle)
    (b : Option (List Nat)) (result : PyVal) (h : o.getResult = .ok b)
    (hne : b.map Raw.rbytes ≠ w.last_raw_value)
    (hp : (parse_input (b.map Raw.rbytes)).isNone = false)
    (hh : handler (parse_input (b.map Raw.rbytes)) w.context = .ok result)
    (hd : result.isDict = false) :
    runCycle handler w o =
      ({ w with last_raw_value := b.map Raw.rbytes },
       [.getE w.context.input_key, .decodeE (b.map Raw.rbytes),
        .invokeE (parse_input (b.map Raw.rbytes)),
        .logE "[warn] Handler return is not a dict; skipping write", .sleepE 5]) := by
  simp [runCycle, h, hne, hp, hh, hd]

theorem runCycle_encodeErr (handler : HandlerFn) (w : World) (o : Oracle)
    (b : Option (List Nat)) (result : PyVal) (h : o.getResult = .ok b)
    (hne : b.map Raw.rbytes ≠ w.last_raw_value)
    (hp : (parse_input (b.map Raw.rbytes)).isNone = false)
    (hh : handler (parse_input (b.map Raw.rbytes)) w.context = .ok result)
    (hd : result.isDict = true) (hdump : dumpsV result = .error ()) :
    runCycle handler w o =
      ({ w with last_raw_value := b.map Raw.rbytes },
       [.getE w.context.input_key, .decodeE (b.map Raw.rbytes),
        .invokeE (parse_input (b.map Raw.rbytes)),
        .logE "[error] Failed to write handler output to Redis", .sleepE 5]) := by
  simp [runCycle, h, hne, hp, hh, hd, hdump]

theorem runCycle_setFail (handler : HandlerFn) (w : World) (o : Oracle)
    (b : Option (List Nat)) (result : PyVal) (out : List Char) (h : o.getResult = .ok b)
    (hne : b.map Raw.rbytes ≠ w.last_raw_value)
    (hp : (parse_input (b.map Raw.rbytes)).isNone = false)
    (hh : handler (parse_input (b.map Raw.rbytes)) w.context = .ok result)
    (hd : result.isDict = true) (hdump : dumpsV result = .ok out)
    (hset : o.setOk = false) :
    runCycle handler w o =
      ({ w with last_raw_value := b.map Raw.rbytes },
       [.getE w.context.input_key, .decodeE (b.map Raw.rbytes),
        .invokeE (parse_input (b.map Raw.rbytes)),
        .setE w.context.output_key ⟨out⟩,
        .logE "[error] Failed to write handler output to Redis", .sleepE 5]) := by
  simp [runCycle, h, hne, hp, hh, hd, hdump, hset]

theorem runCycle_publish (handler : HandlerFn) (w : World) (o : Oracle)
    (b : Option (List Nat)) (result : PyVal) (out : List Char) (h : o.getResult = .ok b)
    (hne : b.map Raw.rbytes ≠ w.last_raw_value)
    (hp : (parse_input (b.map Raw.rbytes)).isNone = false)
    (hh : handler (parse_input (b.map Raw.rbytes)) w.context = .ok result)
    (hd : result.isDict = true) (hdump : dumpsV result = .ok out)
    (hset : o.setOk = true) :
    runCycle handler w o =
      ({ context := { w.context with last_execution := some o.pubTime },
         last_raw_value := b.map Raw.rbytes,
         store := storeSet w.store w.context.output_key ⟨out⟩ },
       [.getE w.context.input_key, .decodeE (b.map Raw.rbytes),
        .invokeE (parse_input (b.map Raw.rbytes)),
        .setE w.context.output_key ⟨out⟩,
        .logE ("[info] Processed input and wrote output to key \x27"
                 ++ w.context.output_key ++ "\x27"),
        .sleepE 5]) := by
  simp [runCycle, h, hne, hp, hh, hd, hdump, hset]

/-- Per-cycle bookkeeping: configuration fields never change, GETs name
only the input key, SETs name only the output key, and the context is
either untouched or updated exactly at `last_execution` by a successful
publish. -/
theorem runCycle_anatomy (handler : HandlerFn) (w : World) (o : Oracle) :
    ((runCycle handler w o).1.context.host = w.context.host ∧
     (runCycle handler w o).1.context.port = w.context.port ∧
     (runCycle handler w o).1.context.input_key = w.context.input_key ∧
     (runCycle handler w o).1.context.output_key = w.context.output_key ∧
     (runCycle handler w o).1.context.function_getmtime = w.context.function_getmtime ∧
     (runCycle handler w o).1.context.env = w.context.env) ∧
    (∀ k, Event.getE k ∈ (runCycle handler w o).2 → k = w.context.input_key) ∧
    (∀ k vl, Event.setE k vl ∈ (runCycle handler w o).2 → k = w.context.output_key) ∧
    ((runCycle handler w o).1.context = w.context ∨
      ((runCycle handler w o).1.context
          = { w.context with last_execution := some o.pubTime } ∧ o.setOk = true ∧
        ∃ out, Event.setE w.context.output_key out ∈ (runCycle handler w o).2)) ∧
    (o.setOk = false → (runCycle handler w o).1.context = w.context) := by
  cases hg : o.getResult with
  | error e =>
    cases e
    rw [runCycle_getErr handler w o hg]
    refine ⟨⟨rfl, rfl, rfl, rfl, rfl, rfl⟩, ?_, ?_, Or.inl rfl, fun _ => rfl⟩
    · intro k hk; simpa using hk
    · intro k vl hk; simp at hk
  | ok b =>
    by_cases he : b.map Raw.rbytes = w.last_raw_value
    · rw [runCycle_unchanged handler w o b hg he]
      refine ⟨⟨rfl, rfl, rfl, rfl, rfl, rfl⟩, ?_, ?_, Or.inl rfl, fun _ => rfl⟩
      · intro k hk; simpa using hk
      · intro k vl hk; simp at hk
    · cases hp : (parse_input (b.map Raw.rbytes)).isNone with
      | true =>
        rw [runCycle_badJson handler w o b hg he hp]
        refine ⟨⟨rfl, rfl, rfl, rfl, rfl, rfl⟩, ?_, ?_, Or.inl rfl, fun _ => rfl⟩
        · intro k hk; simpa using hk
        · intro k vl hk; simp at hk
      | false =>
        cases hh : handler (parse_input (b.map Raw.rbytes)) w.context with
        | error e2 =>
          cases e2
          rw [runCycle_handlerErr handler w o b hg he hp hh]
          refine ⟨⟨rfl, rfl, rfl, rfl, rfl, rfl⟩, ?_, ?_, Or.inl rfl, fun _ => rfl⟩
          · intro k hk; simpa using hk
          · intro k vl hk; simp at hk
        | ok result =>
          cases hd : result.isDict with
          | false =>
            rw [runCycle_nonDict handler w o b result hg he hp hh hd]
            refine ⟨⟨rfl, rfl, rfl, rfl, rfl, rfl⟩, ?_, ?_, Or.inl rfl, fun _ => rfl⟩
            · intro k hk; simpa using hk
            · intro k vl hk; simp at hk
          | true =>
            cases hdump : dumpsV result with
            | error e3 =>
              cases e3
              rw [runCycle_encodeErr handler w o b result hg he hp hh hd hdump]
              refine ⟨⟨rfl, rfl, rfl, rfl, rfl, rfl⟩, ?_, ?_, Or.inl rfl, fun _ => rfl⟩
              · intro k hk; simpa using hk
              · intro k vl hk; simp at hk
            | ok out =>
              cases hset : o.setOk with
              | false =>
                rw [runCycle_setFail handler w o b result out hg he hp hh hd hdump hset]
                refine ⟨⟨rfl, rfl, rfl, rfl, rfl, rfl⟩, ?_, ?_, Or.inl rfl, fun _ => rfl⟩
                · intro k hk; simpa using hk
                · intro k vl hk; simp at hk
                  exact hk.1
              | true =>
                rw [runCycle_publish handler w o b result out hg he hp hh hd hdump hset]
                refine ⟨⟨rfl, rfl, rfl, rfl, rfl, rfl⟩, ?_, ?_,
                  Or.inr ⟨rfl, rfl, ⟨⟨out⟩, by simp⟩⟩, ?_⟩
                · intro k hk; simpa using hk
                · intro k vl hk; simp at hk
                  exact hk.1
                · intro hc; exact absurd hc (by simp)

/-- Whenever the GET succeeds, the cycle leaves the read value recorded
as the last observed raw value, whatever the rest of the cycle does. -/
theorem runCycle_records (handler : HandlerFn) (w : World) (o : Oracle)
    (b : Option (List Nat)) (h : o.getResult = .ok b) :
    (runCycle handler w o).1.last_raw_value = b.map Raw.rbytes := by
  by_cases he : b.map Raw.rbytes = w.last_raw_value
  · rw [runCycle_unchanged handler w o b h he]; exact he.symm
  · cases hp : (parse_input (b.map Raw.rbytes)).isNone with
    | true => rw [runCycle_badJson handler w o b h he hp]
    | false =>
      cases hh : handler (parse_input (b.map Raw.rbytes)) w.context with
      | error e2 =>
        cases e2
        rw [runCycle_handlerErr handler w o b h he hp hh]
      | ok result =>
        cases hd : result.isDict with
        | false => rw [runCycle_nonDict handler w o b result h he hp hh hd]
        | true =>
          cases hdump : dumpsV result with
          | error e3 =>
            cases e3
            rw [runCycle_encodeErr handler w o b result h he hp hh hd hdump]
          | ok out =>
            cases hset : o.setOk with
            | false => rw [runCycle_setFail handler w o b result out h he hp hh hd hdump hset]
            | true => rw [runCycle_publish handler w o b result out h he hp hh hd hdump hset]

/-- While every successful GET keeps returning the already recorded raw
value, no later cycle decodes or invokes anything. -/
theorem runCycles_stale (handler : HandlerFn) (os : List Oracle) : ∀ (w : World)
    (b : Option (List Nat)), w.last_raw_value = b.map Raw.rbytes →
    (∀ o' ∈ os, o'.getResult = .error () ∨ o'.getResult = .ok b) →
    (runCycles handler w os).1.last_raw_value = b.map Raw.rbytes ∧
    ∀ e ∈ (runCycles handler w os).2,
      (∀ r, e ≠ Event.decodeE r) ∧ (∀ p, e ≠ Event.invokeE p) := by
  induction os with
  | nil =>
    intro w b hl _
    exact ⟨hl, by intro e he; simp [runCycles] at he⟩
  | cons o os ih =>
    intro w b hl hos
    have hstep : ∃ evs0, runCycle handler w o = (w, evs0) ∧
        ∀ e ∈ evs0, (∀ r, e ≠ Event.decodeE r) ∧ (∀ p, e ≠ Event.invokeE p) := by
      rcases hos o (by simp) with herr | hok
      · refine ⟨_, runCycle_getErr handler w o herr, ?_⟩
        intro e he
        simp only [List.mem_cons, List.not_mem_nil, or_false] at he
        rcases he with rfl | rfl | rfl <;> exact ⟨fun r => by simp, fun p => by simp⟩
      · refine ⟨_, runCycle_unchanged handler w o b hok hl.symm, ?_⟩
        intro e he
        simp only [List.mem_cons, List.not_mem_nil, or_false] at he
        rcases he with rfl | rfl <;> exact ⟨fun r => by simp, fun p => by simp⟩
    obtain ⟨evs0, hrc, hevs0⟩ := hstep
    obtain ⟨ih1, ih2⟩ := ih w b hl (fun o' ho' => hos o' (by simp [ho']))
    simp only [runCycles, hrc]
    refine ⟨ih1, ?_⟩
    intro e he
    rw [List.mem_append] at he
    rcases he with he | he
    · exact hevs0 e he
    · exact ih2 e he

/-- Key discipline over any finite run: GETs name only the input key and
SETs only the output key, and the configured keys never change. -/
theorem runCycles_keys (handler : HandlerFn) (os : List Oracle) : ∀ (w : World),
    (∀ k, Event.getE k ∈ (runCycles handler w os).2 → k = w.context.input_key) ∧
    (∀ k vl, Event.setE k vl ∈ (runCycles handler w os).2 → k = w.context.output_key) ∧
    (runCycles handler w os).1.context.input_key = w.context.input_key ∧
    (runCycles handler w os).1.context.output_key = w.context.output_key := by
  induction os with
  | nil =>
    intro w
    refine ⟨?_, ?_, rfl, rfl⟩
    · intro k hk; simp [runCycles] at hk
    · intro k vl hk; simp [runCycles] at hk
  | cons o os ih =>
    intro w
    obtain ⟨hfields, hget, hset, -, -⟩ := runCycle_anatomy handler w o
    obtain ⟨i1, i2, i3, i4⟩ := ih (runCycle handler w o).1
    have hik : (runCycle handler w o).1.context.input_key = w.context.input_key :=
      hfields.2.2.1
    have hok : (runCycle handler w o).1.context.output_key = w.context.output_key :=
      hfields.2.2.2.1
    simp only [runCycles]
    refine ⟨?_, ?_, ?_, ?_⟩
    · intro k hk
      rw [List.mem_append] at hk
      rcases hk with hk | hk
      · exact hget k hk
      · rw [i1 k hk, hik]
    · intro k vl hk
      rw [List.mem_append] at hk
      rcases hk with hk | hk
      · exact hset k vl hk
      · rw [i2 k vl hk, hok]
    · rw [i3, hik]
    · rw [i4, hok]

/-- C1: in a cycle whose GET returns a changed raw value that decodes to
a JSON object, whose handler is invoked and returns a mapping `M`, and
whose JSON encode and store SET succeed, the output key afterwards holds
exactly the UTF-8 bytes of the JSON encoding of `M`; decoding those
stored bytes with the runtime decoder yields `M` again (round-trip); and
`lastExecutionAt` is set to the publish-time clock value, which is at or
after the cycle start under clock monotonicity. -/
theorem claim1_publish_roundtrip (handler : HandlerFn) (w : World) (o : Oracle)
    (bytes : List Nat) (P M : List (String × PyVal)) (enc : List Char) (tStart : Nat)
    (hget : o.getResult = .ok (some bytes))
    (hchanged : some (Raw.rbytes bytes) ≠ w.last_raw_value)
    (hparse : parse_input (some (Raw.rbytes bytes)) = .pydict P)
    (hhandler : handler (.pydict P) w.context = .ok (.pydict M))
    (henc : dumpsV (.pydict M) = .ok enc)
    (hset : o.setOk = true)
    (hclock : tStart ≤ o.pubTime) :
    Event.invokeE (.pydict P) ∈ (runCycle handler w o).2 ∧
    (runCycle handler w o).1.store w.context.output_key
      = some (utf8Encode ⟨enc⟩) ∧
    parse_input (some (Raw.rbytes (utf8Encode ⟨enc⟩))) = .pydict M ∧
    ∃ t, (runCycle handler w o).1.context.last_execution = some t ∧ tStart ≤ t := by
  have hb : (some bytes).map Raw.rbytes = some (Raw.rbytes bytes) := rfl
  have hne : (some bytes).map Raw.rbytes ≠ w.last_raw_value := by rw [hb]; exact hchanged
  have hp : (parse_input ((some bytes).map Raw.rbytes)).isNone = false := by
    rw [hb, hparse]; rfl
  have hh : handler (parse_input ((some bytes).map Raw.rbytes)) w.context
      = .ok (.pydict M) := by rw [hb, hparse]; exact hhandler
  have hd : (PyVal.pydict M).isDict = true := rfl
  rw [runCycle_publish handler w o (some bytes) (.pydict M) enc hget hne hp hh hd henc hset]
  refine ⟨?_, ?_, ?_, o.pubTime, rfl, hclock⟩
  · rw [hb, hparse]
    simp
  · simp [storeSet]
  · exact parse_input_dumps (.pydict M) enc henc

def wHandler : HandlerFn := fun _ _ => .ok (.pydict [("y", .pyint 2)])

def wContext : Context :=
  { host := "localhost", port := 6379, input_key := "metrics", output_key := "results",
    function_getmtime := 3, last_execution := none, env := [] }

def wWorld : World := { context := wContext, last_raw_value := none, store := fun _ => none }

def wInput : String := ⟨['{', '"', 'x', '"', ':', ' ', '1', '}']⟩

def wOutput : String := ⟨['{', '"', 'y', '"', ':', ' ', '2', '}']⟩

def wOracle : Oracle := { getResult := .ok (some (utf8Encode wInput)), setOk := true, pubTime := 100 }

theorem wInput_dumps : dumpsV (.pydict [("x", .pyint 1)]) = .ok wInput.data := by
  simp [dumpsV, dumpsMembers, encStr, encInt, natDigs, natDigList, digCh, escapeChar, wInput]

theorem wOutput_dumps : dumpsV (.pydict [("y", .pyint 2)]) = .ok wOutput.data := by
  simp [dumpsV, dumpsMembers, encStr, encInt, natDigs, natDigList, digCh, escapeChar, wOutput]

theorem wInput_parse : parse_input (some (Raw.rbytes (utf8Encode wInput)))
    = .pydict [("x", .pyint 1)] :=
  parse_input_dumps (.pydict [("x", .pyint 1)]) wInput.data wInput_dumps

/-- C1 witness: the scenario with input `x = 1` and handler output `y = 2`. -/
theorem claim1_witness :
    Event.invokeE (.pydict [("x", .pyint 1)]) ∈ (runCycle wHandler wWorld wOracle).2 ∧
    (runCycle wHandler wWorld wOracle).1.store wWorld.context.output_key
      = some (utf8Encode ⟨wOutput.data⟩) ∧
    parse_input (some (Raw.rbytes (utf8Encode ⟨wOutput.data⟩)))
      = .pydict [("y", .pyint 2)] ∧
    ∃ t, (runCycle wHandler wWorld wOracle).1.context.last_execution = some t ∧ 42 ≤ t :=
  claim1_publish_roundtrip wHandler wWorld wOracle (utf8Encode wInput)
    [("x", .pyint 1)] [("y", .pyint 2)] wOutput.data 42
    rfl (by simp [wWorld]) wInput_parse rfl wOutput_dumps rfl (by decide)

/-- C2: when two consecutive successful reads observe the same raw value,
the second cycle performs only the GET and the sleep: the state, the
context and the store are untouched and no decode, invocation or SET
appears in its trace. -/
theorem claim2_unchangedValueSkips (handler : HandlerFn) (w : World) (o1 o2 : Oracle)
    (b : Option (List Nat)) (h1 : o1.getResult = .ok b) (h2 : o2.getResult = .ok b) :
    runCycle handler (runCycle handler w o1).1 o2
      = ((runCycle handler w o1).1, [.getE w.context.input_key, .sleepE 5]) := by
  have hrec := runCycle_records handler w o1 b h1
  have hik : (runCycle handler w o1).1.context.input_key = w.context.input_key :=
    (runCycle_anatomy handler w o1).1.2.2.1
  rw [runCycle_unchanged handler _ o2 b h2 hrec.symm, hik]

/-- C2 witness: a second observation of the same bytes only polls and
sleeps. -/
theorem claim2_witness :
    runCycle wHandler (runCycle wHandler wWorld wOracle).1 wOracle
      = ((runCycle wHandler wWorld wOracle).1,
         [.getE wWorld.context.input_key, .sleepE 5]) :=
  claim2_unchangedValueSkips wHandler wWorld wOracle wOracle
    (some (utf8Encode wInput)) rfl rfl

/-- C3: a successfully read raw value is recorded as the last observed
value whatever the rest of the cycle does, so as long as later successful
GETs keep returning that value, no later cycle decodes anything or
invokes the handler. -/
theorem claim3_recordBeforeOutcome (handler : HandlerFn) (w : World) (o : Oracle)
    (b : Option (List Nat)) (os : List Oracle)
    (hget : o.getResult = .ok b)
    (hos : ∀ o' ∈ os, o'.getResult = .error () ∨ o'.getResult = .ok b) :
    (runCycle handler w o).1.last_raw_value = b.map Raw.rbytes ∧
    ∀ e ∈ (runCycles handler (runCycle handler w o).1 os).2,
      (∀ r, e ≠ Event.decodeE r) ∧ (∀ p, e ≠ Event.invokeE p) := by
  have hrec := runCycle_records handler w o b hget
  exact ⟨hrec, (runCycles_stale handler os (runCycle handler w o).1 b hrec hos).2⟩

def failHandler : HandlerFn := fun _ _ => .error ()

/-- C3 witness: after a cycle whose handler raised, two more cycles that
read the same bytes never decode or invoke again. -/
theorem claim3_witness :
    (runCycle failHandler wWorld wOracle).1.last_raw_value
      = (some (utf8Encode wInput)).map Raw.rbytes ∧
    ∀ e ∈ (runCycles failHandler (runCycle failHandler wWorld wOracle).1
        [wOracle, wOracle]).2,
      (∀ r, e ≠ Event.decodeE r) ∧ (∀ p, e ≠ Event.invokeE p) :=
  claim3_recordBeforeOutcome failHandler wWorld wOracle (some (utf8Encode wInput))
    [wOracle, wOracle] rfl
    (by intro o' ho'; rw [List.mem_cons, List.mem_singleton] at ho'
        rcases ho' with rfl | rfl <;> exact Or.inr rfl)

/-- C4: when the handler raises, the exception is caught and logged, the
cycle ends in the sleep (so the loop reaches the next cycle), nothing is
written to the store, and the context — in particular `lastExecutionAt` —
is unchanged. -/
theorem claim4_handlerException (handler : HandlerFn) (w : World) (o : Oracle)
    (b : Option (List Nat))
    (hget : o.getResult = .ok b)
    (hne : b.map Raw.rbytes ≠ w.last_raw_value)
    (hp : (parse_input (b.map Raw.rbytes)).isNone = false)
    (hraise : handler (parse_input (b.map Raw.rbytes)) w.context = .error ()) :
    (runCycle handler w o).1.context = w.context ∧
    (runCycle handler w o).1.store = w.store ∧
    (∀ k vl, Event.setE k vl ∉ (runCycle handler w o).2) ∧
    Event.logE "[error] Exception inside user handler" ∈ (runCycle handler w o).2 ∧
    Event.sleepE 5 ∈ (runCycle handler w o).2 := by
  rw [runCycle_handlerErr handler w o b hget hne hp hraise]
  refine ⟨rfl, rfl, ?_, by simp, by simp⟩
  intro k vl hk
  simp at hk

/-- C4 witness: a raising handler on fresh input leaves context and store
untouched and logs the error. -/
theorem claim4_witness :
    (runCycle failHandler wWorld wOracle).1.context = wWorld.context ∧
    (runCycle failHandler wWorld wOracle).1.store = wWorld.store ∧
    (∀ k vl, Event.setE k vl ∉ (runCycle failHandler wWorld wOracle).2) ∧
    Event.logE "[error] Exception inside user handler"
      ∈ (runCycle failHandler wWorld wOracle).2 ∧
    Event.sleepE 5 ∈ (runCycle failHandler wWorld wOracle).2 :=
  claim4_handlerException failHandler wWorld wOracle (some (utf8Encode wInput))
    rfl (by simp [wWorld]) (by rw [show (some (utf8Encode wInput)).map Raw.rbytes
        = some (Raw.rbytes (utf8Encode wInput)) from rfl, wInput_parse]; rfl) rfl

/-- C5: when the handler returns a non-mapping, a warning is logged,
nothing is published (no SET event and the store keeps every prior
value), and the context — in particular `lastExecutionAt` — is
unchanged. -/
theorem claim5_nonMappingResult (handler : HandlerFn) (w : World) (o : Oracle)
    (b : Option (List Nat)) (result : PyVal)
    (hget : o.getResult = .ok b)
    (hne : b.map Raw.rbytes ≠ w.last_raw_value)
    (hp : (parse_input (b.map Raw.rbytes)).isNone = false)
    (hret : handler (parse_input (b.map Raw.rbytes)) w.context = .ok result)
    (hnd : result.isDict = false) :
    (runCycle handler w o).1.context = w.context ∧
    (runCycle handler w o).1.store = w.store ∧
    (∀ k vl, Event.setE k vl ∉ (runCycle handler w o).2) ∧
    Event.logE "[warn] Handler return is not a dict; skipping write"
      ∈ (runCycle handler w o).2 := by
  rw [runCycle_nonDict handler w o b result hget hne hp hret hnd]
  refine ⟨rfl, rfl, ?_, by simp⟩
  intro k vl hk
  simp at hk

def listHandler : HandlerFn := fun _ _ => .ok (.pylist [.pyint 7])

/-- C5 witness: a handler returning a list publishes nothing and leaves
the prior output untouched. -/
theorem claim5_witness :
    (runCycle listHandler wWorld wOracle).1.context = wWorld.context ∧
    (runCycle listHandler wWorld wOracle).1.store = wWorld.store ∧
    (∀ k vl, Event.setE k vl ∉ (runCycle listHandler wWorld wOracle).2) ∧
    Event.logE "[warn] Handler return is not a dict; skipping write"
      ∈ (runCycle listHandler wWorld wOracle).2 :=
  claim5_nonMappingResult listHandler wWorld wOracle (some (utf8Encode wInput))
    (.pylist [.pyint 7]) rfl (by simp [wWorld])
    (by rw [show (some (utf8Encode wInput)).map Raw.rbytes
        = some (Raw.rbytes (utf8Encode wInput)) from rfl, wInput_parse]; rfl) rfl rfl

def cEchoHandler : HandlerFn := fun p _ => .ok p

def cInput : String := ⟨['[', '1', ']']⟩

def cOracle : Oracle :=
  { getResult := .ok (some (utf8Encode cInput)), setOk := true, pubTime := 0 }

theorem cInput_dumps : dumpsV (.pylist [.pyint 1]) = .ok cInput.data := by
  simp [dumpsV, dumpsItems, encInt, natDigs, natDigList, digCh, cInput]

theorem cInput_parse : parse_input (some (Raw.rbytes (utf8Encode cInput)))
    = .pylist [.pyint 1] :=
  parse_input_dumps (.pylist [.pyint 1]) cInput.data cInput_dumps

/-- C7 counterexample: with the input key holding the JSON array `[1]`,
the handler is invoked with a list — a payload that is not a mapping —
so the claim that the handler is only ever invoked with a mapping is
false on the code. -/
theorem claim7_counterexample :
    Event.invokeE (.pylist [.pyint 1]) ∈ (runCycle cEchoHandler wWorld cOracle).2 ∧
    (PyVal.pylist [.pyint 1]).isDict = false := by
  have hb : (some (utf8Encode cInput)).map Raw.rbytes
      = some (Raw.rbytes (utf8Encode cInput)) := rfl
  have hne : (some (utf8Encode cInput)).map Raw.rbytes ≠ wWorld.last_raw_value := by
    simp [wWorld]
  have hp : (parse_input ((some (utf8Encode cInput)).map Raw.rbytes)).isNone = false := by
    rw [hb, cInput_parse]; rfl
  have hh : cEchoHandler (parse_input ((some (utf8Encode cInput)).map Raw.rbytes))
      wWorld.context = .ok (.pylist [.pyint 1]) := by
    rw [hb, cInput_parse]
    rfl
  refine ⟨?_, rfl⟩
  rw [runCycle_nonDict cEchoHandler wWorld cOracle (some (utf8Encode cInput))
    (.pylist [.pyint 1]) rfl hne hp hh rfl]
  rw [hb, cInput_parse]
  exact .tail _ (.tail _ (.head _))

/-- C7 (amended): the decode step parses a changed raw value as arbitrary
JSON and the handler is invoked with whatever non-null value came out,
which need not be a mapping; on a cycle where the GET returns nothing no
handler invocation occurs and the cycle ends in the sleep. -/
theorem claim7_amended (handler : HandlerFn) (w : World) (o : Oracle)
    (b : Option (List Nat)) (hget : o.getResult = .ok b) :
    (b.map Raw.rbytes ≠ w.last_raw_value →
      (parse_input (b.map Raw.rbytes)).isNone = false →
      Event.invokeE (parse_input (b.map Raw.rbytes)) ∈ (runCycle handler w o).2) ∧
    (b = none →
      (∀ p, Event.invokeE p ∉ (runCycle handler w o).2) ∧
      Event.sleepE 5 ∈ (runCycle handler w o).2) := by
  constructor
  · intro hne hp
    cases hh : handler (parse_input (b.map Raw.rbytes)) w.context with
    | error e =>
      cases e
      rw [runCycle_handlerErr handler w o b hget hne hp hh]
      simp
    | ok result =>
      cases hd : result.isDict with
      | false =>
        rw [runCycle_nonDict handler w o b result hget hne hp hh hd]
        simp
      | true =>
        cases hdump : dumpsV result with
        | error e =>
          cases e
          rw [runCycle_encodeErr handler w o b result hget hne hp hh hd hdump]
          simp
        | ok out =>
          cases hset : o.setOk with
          | false =>
            rw [runCycle_setFail handler w o b result out hget hne hp hh hd hdump hset]
            simp
          | true =>
            rw [runCycle_publish handler w o b result out hget hne hp hh hd hdump hset]
            simp
  · intro hnone
    subst hnone
    by_cases he : (none : Option (List Nat)).map Raw.rbytes = w.last_raw_value
    · rw [runCycle_unchanged handler w o none hget he]
      refine ⟨?_, by simp⟩
      intro p hk
      simp at hk
    · rw [runCycle_badJson handler w o none hget he rfl]
      refine ⟨?_, by simp⟩
      intro p hk
      simp at hk

/-- C7 witness for the amended claim: the array input `[1]` does lead to
an invocation with the parsed list payload. -/
theorem claim7_witness :
    ((some (utf8Encode cInput)).map Raw.rbytes ≠ wWorld.last_raw_value →
      (parse_input ((some (utf8Encode cInput)).map Raw.rbytes)).isNone = false →
      Event.invokeE (parse_input ((some (utf8Encode cInput)).map Raw.rbytes))
        ∈ (runCycle cEchoHandler wWorld cOracle).2) ∧
    (some (utf8Encode cInput) = none →
      (∀ p, Event.invokeE p ∉ (runCycle cEchoHandler wWorld cOracle).2) ∧
      Event.sleepE 5 ∈ (runCycle cEchoHandler wWorld cOracle).2) :=
  claim7_amended cEchoHandler wWorld cOracle (some (utf8Encode cInput)) rfl

/-- C8: over any finite run, every GET names the input key and every SET
names the output key; with distinct configured keys the runtime therefore
never reads the output key and never writes the input key. -/
theorem claim8_keyDiscipline (handler : HandlerFn) (w : World) (os : List Oracle)
    (hdistinct : w.context.input_key ≠ w.context.output_key) :
    (∀ k, Event.getE k ∈ (runCycles handler w os).2 → k = w.context.input_key) ∧
    (∀ k vl, Event.setE k vl ∈ (runCycles handler w os).2 → k = w.context.output_key) ∧
    Event.getE w.context.output_key ∉ (runCycles handler w os).2 ∧
    (∀ vl, Event.setE w.context.input_key vl ∉ (runCycles handler w os).2) := by
  obtain ⟨h1, h2, -, -⟩ := runCycles_keys handler os w
  refine ⟨h1, h2, ?_, ?_⟩
  · intro hmem
    exact hdistinct (h1 _ hmem).symm
  · intro vl hmem
    exact hdistinct (h2 _ _ hmem)

/-- C8 witness: a three-cycle run against the concrete configuration. -/
theorem claim8_witness :
    (∀ k, Event.getE k ∈ (runCycles wHandler wWorld [wOracle, wOracle, wOracle]).2 →
      k = wWorld.context.input_key) ∧
    (∀ k vl, Event.setE k vl ∈ (runCycles wHandler wWorld [wOracle, wOracle, wOracle]).2 →
      k = wWorld.context.output_key) ∧
    Event.getE wWorld.context.output_key
      ∉ (runCycles wHandler wWorld [wOracle, wOracle, wOracle]).2 ∧
    (∀ vl, Event.setE wWorld.context.input_key vl
      ∉ (runCycles wHandler wWorld [wOracle, wOracle, wOracle]).2) :=
  claim8_keyDiscipline wHandler wWorld [wOracle, wOracle, wOracle] (by decide)

/-- C9: the runtime mutates no context field other than
`lastExecutionAt`; that field changes only together with a SET event on
the output key in a cycle whose SET succeeded (set to the publish-time
clock reading), and on a write failure the context is unchanged. -/
theorem claim9_lastExecutionDiscipline (handler : HandlerFn) (w : World) (o : Oracle) :
    ((runCycle handler w o).1.context.host = w.context.host ∧
     (runCycle handler w o).1.context.port = w.context.port ∧
     (runCycle handler w o).1.context.input_key = w.context.input_key ∧
     (runCycle handler w o).1.context.output_key = w.context.output_key ∧
     (runCycle handler w o).1.context.function_getmtime = w.context.function_getmtime ∧
     (runCycle handler w o).1.context.env = w.context.env) ∧
    ((runCycle handler w o).1.context = w.context ∨
      ((runCycle handler w o).1.context
          = { w.context with last_execution := some o.pubTime } ∧ o.setOk = true ∧
        ∃ out, Event.setE w.context.output_key out ∈ (runCycle handler w o).2)) ∧
    ((runCycle handler w o).1.context = w.context ∨ o.setOk = true) := by
  obtain ⟨a1, -, -, a4, -⟩ := runCycle_anatomy handler w o
  refine ⟨a1, a4, ?_⟩
  rcases a4 with h | ⟨-, hs, -⟩
  · exact Or.inl h
  · exact Or.inr hs

/-- C10: `parse_input` is total over every possible raw value — `None`,
text, or arbitrary bytes — and returns the parsed JSON value when the
body of its `try` block succeeds and `None` when it raises; no input can
make it propagate an exception. -/
theorem claim10_parseInputTotal (r : Option Raw) :
    (r = none ∧ parse_input r = .pynone) ∨
    (∃ raw, r = some raw ∧ parse_inputBody raw = .error () ∧ parse_input r = .pynone) ∨
    (∃ raw v, r = some raw ∧ parse_inputBody raw = .ok v ∧ parse_input r = v) := by
  cases r with
  | none => exact Or.inl ⟨rfl, rfl⟩
  | some raw =>
    cases hb : parse_inputBody raw with
    | error e =>
      cases e
      exact Or.inr (Or.inl ⟨raw, rfl, hb, by simp [parse_input, hb]⟩)
    | ok v =>
      exact Or.inr (Or.inr ⟨raw, v, rfl, hb, by simp [parse_input, hb]⟩)

/-- C6: the process exits with a non-zero code before any poll-loop
activity exactly when the handler file is absent, executing the handler
module raises, the module exposes no callable named `handler`, the
output-key variable is unset, or the port variable does not parse as an
integer; otherwise the run enters the loop and never exits. -/
theorem claim6_startupExit (env : Env) (m : UserModule) (store0 : Store) (os : List Oracle) :
    (∃ code evs, runMain env m store0 os = .exited code evs ∧ code ≠ 0 ∧ evs = []) ↔
      (m.isfile = false ∨ m.execOk = false ∨
       (∀ f, m.handlerAttr ≠ some (.callableF f)) ∨
       env.redis_output_key = none ∨
       pyParseInt (env.redis_port.getD "6379") = none) := by
  rcases hO : env.redis_output_key with _ | outk
  · have hrm : runMain env m store0 os = .exited 1 [] := by
      simp only [runMain, startup, hO]
    exact ⟨fun _ => Or.inr (Or.inr (Or.inr (Or.inl rfl))),
      fun _ => ⟨1, [], hrm, by decide, rfl⟩⟩
  · rcases hP : pyParseInt (env.redis_port.getD "6379") with _ | port
    · have hrm : runMain env m store0 os = .exited 1 [] := by
        simp only [runMain, startup, hO, hP]
      exact ⟨fun _ => Or.inr (Or.inr (Or.inr (Or.inr rfl))),
        fun _ => ⟨1, [], hrm, by decide, rfl⟩⟩
    · cases hIf : m.isfile with
      | false =>
        have hrm : runMain env m store0 os = .exited 1 [] := by
          simp only [runMain, startup, load_user_handler, hO, hP, hIf, if_true, if_false, Bool.true_eq_false, Bool.false_eq_true]
        exact ⟨fun _ => Or.inl rfl, fun _ => ⟨1, [], hrm, by decide, rfl⟩⟩
      | true =>
        cases hEx : m.execOk with
        | false =>
          have hrm : runMain env m store0 os = .exited 1 [] := by
            simp only [runMain, startup, load_user_handler, hO, hP, hIf, hEx, if_true, if_false, Bool.true_eq_false, Bool.false_eq_true]
          exact ⟨fun _ => Or.inr (Or.inl rfl), fun _ => ⟨1, [], hrm, by decide, rfl⟩⟩
        | true =>
          rcases hA : m.handlerAttr with _ | attr
          · have hrm : runMain env m store0 os = .exited 1 [] := by
              simp only [runMain, startup, load_user_handler, hO, hP, hIf, hEx, hA, if_true, if_false, Bool.true_eq_false, Bool.false_eq_true]
            refine ⟨fun _ => Or.inr (Or.inr (Or.inl ?_)),
              fun _ => ⟨1, [], hrm, by decide, rfl⟩⟩
            intro f hf
            exact Option.noConfusion hf
          · cases attr with
            | callableF fn =>
              have hrm : ∃ w evs, runMain env m store0 os = .looping w evs := by
                simp only [runMain, startup, load_user_handler, hO, hP, hIf, hEx, hA, if_true, if_false, Bool.true_eq_false, Bool.false_eq_true]
                exact ⟨_, _, rfl⟩
              obtain ⟨w2, evs2, hrm⟩ := hrm
              constructor
              · intro hx
                obtain ⟨c, evs, heq, hc, hevs⟩ := hx
                rw [hrm] at heq
                exact RunResult.noConfusion heq
              · intro hcond
                rcases hcond with h | h | h | h | h
                · exact Bool.noConfusion h
                · exact Bool.noConfusion h
                · exact absurd rfl (h fn)
                · exact Option.noConfusion h
                · exact Option.noConfusion h
            | nonCallable v =>
              have hrm : runMain env m store0 os = .exited 1 [] := by
                simp only [runMain, startup, load_user_handler, hO, hP, hIf, hEx, hA, if_true, if_false, Bool.true_eq_false, Bool.false_eq_true]
              refine ⟨fun _ => Or.inr (Or.inr (Or.inl ?_)),
                fun _ => ⟨1, [], hrm, by decide, rfl⟩⟩
              intro f hf
              simp at hf
